import Mathlib

/-!
# Verification of the scim-proxy decision engine

This file gives a shallow embedding, in Lean, of the scim-proxy sources
(`config.ts` / `proxy.ts` / `index.ts`) and proves the specification claims
about them.

Modelling conventions:
* JavaScript strings are Lean `String`s (lists of unicode scalars).
* `JSON.parse` / `JSON.stringify` are modelled by an executable JSON codec
  (`jsonParse` / `jsonEncode`) over an inductive `Json` value type.  Numbers
  keep their source token verbatim (the proxy never computes with them), and
  object member insertion follows JavaScript semantics: a duplicate key keeps
  its first position and takes the later value.
* The impure inputs (`crypto.randomUUID()`, `new Date().toISOString()`) are
  supplied through a `SynthEnv` record, and the upstream `fetch` through an
  oracle function from the outbound request to an `UpstreamOutcome`.
* JavaScript runtime faults that escape the functions (reading a property of
  `null`, assigning a property to a primitive in strict mode) are modelled as
  `Except.error .typeError`.
-/

/-! ## JSON values -/

/-- A JSON value as produced by `JSON.parse`.  A number keeps the exact
characters of its literal token. -/
inductive Json where
  | null
  | bool (b : Bool)
  | num (tok : String)
  | str (s : String)
  | arr (items : List Json)
  | obj (fields : List (String × Json))

/-- JavaScript property assignment `o[k] = v` on an object modelled as an
association list: an existing key keeps its position and gets the new value,
a fresh key is appended. -/
def fieldSet : List (String × Json) → String → Json → List (String × Json)
  | [], k, v => [(k, v)]
  | (k', v') :: fs, k, v =>
      if k' = k then (k, v) :: fs else (k', v') :: fieldSet fs k v

/-- JavaScript property read `o[k]` on an object (own properties only). -/
def fieldGet (fs : List (String × Json)) (k : String) : Option Json :=
  match fs with
  | [] => none
  | (k', v) :: fs => if k' = k then some v else fieldGet fs k

/-- Whether the digits of a JSON number token denote zero (the token shape is
`-?digits(.digits)?([eE][+-]?digits)?`, so the value is zero exactly when all
mantissa digits are `0`). -/
def numTokIsZero (tok : String) : Bool :=
  ((tok.data.takeWhile fun c => c ≠ 'e' ∧ c ≠ 'E').filter Char.isDigit).all (· = '0')

/-- JavaScript truthiness of a JSON value. -/
def jsTruthy : Json → Bool
  | .null => false
  | .bool b => b
  | .num tok => ¬ numTokIsZero tok
  | .str s => s ≠ ""
  | .arr _ => true
  | .obj _ => true

/-! ## JSON encoding (`JSON.stringify`) -/

/-- The lower-case hex digit for `n % 16`. -/
def hexDigit (n : Nat) : Char :=
  if n < 10 then Char.ofNat ('0'.toNat + n) else Char.ofNat ('a'.toNat + n - 10)

/-- Escape one character of a JSON string literal: quote and backslash get a
backslash escape, control characters a `\u00XX` escape, everything else is
emitted verbatim. -/
def escChar (c : Char) : List Char :=
  if c = '"' then ['\\', '"']
  else if c = '\\' then ['\\', '\\']
  else if c.toNat < 32 then ['\\', 'u', '0', '0', hexDigit (c.toNat / 16), hexDigit (c.toNat % 16)]
  else [c]

/-- Escape a whole string body. -/
def escSeq : List Char → List Char
  | [] => []
  | c :: cs => escChar c ++ escSeq cs

/-- A JSON string literal, quotes included. -/
def encodeStrLit (s : String) : List Char :=
  '"' :: (escSeq s.data ++ ['"'])

mutual

/-- Render a JSON value compactly, as `JSON.stringify` does. -/
def encodeVal : Json → List Char
  | .null => "null".data
  | .bool true => "true".data
  | .bool false => "false".data
  | .num tok => tok.data
  | .str s => encodeStrLit s
  | .arr [] => ['[', ']']
  | .arr (x :: xs) => '[' :: ((encodeVal x ++ encodeItemsTail xs) ++ [']'])
  | .obj [] => ['{', '}']
  | .obj (f :: fs) => '{' :: ((encodeFieldKV f ++ encodeFieldsTail fs) ++ ['}'])

/-- The remaining array items, each preceded by a comma. -/
def encodeItemsTail : List Json → List Char
  | [] => []
  | x :: xs => ',' :: (encodeVal x ++ encodeItemsTail xs)

/-- One object member, `"key":value`. -/
def encodeFieldKV : String × Json → List Char
  | (k, v) => encodeStrLit k ++ (':' :: encodeVal v)

/-- The remaining object members, each preceded by a comma. -/
def encodeFieldsTail : List (String × Json) → List Char
  | [] => []
  | f :: fs => ',' :: (encodeFieldKV f ++ encodeFieldsTail fs)

end

/-- `JSON.stringify` at the string level. -/
def jsonEncode (j : Json) : String := ⟨encodeVal j⟩

/-! ## JSON parsing (`JSON.parse`) -/

/-- JSON insignificant whitespace. -/
def isWsChar (c : Char) : Bool :=
  c = ' ' ∨ c = '\t' ∨ c = '\n' ∨ c = '\r'

/-- Drop leading JSON whitespace. -/
def wsDrop (cs : List Char) : List Char := cs.dropWhile isWsChar

/-- Strip an expected literal prefix (used for `null` / `true` / `false`). -/
def dropLit : List Char → List Char → Option (List Char)
  | [], cs => some cs
  | l :: ls, c :: cs => if c = l then dropLit ls cs else none
  | _ :: _, [] => none

/-- The value of a hex digit. -/
def hexNib (c : Char) : Option Nat :=
  if '0' ≤ c ∧ c ≤ '9' then some (c.toNat - '0'.toNat)
  else if 'a' ≤ c ∧ c ≤ 'f' then some (c.toNat - 'a'.toNat + 10)
  else if 'A' ≤ c ∧ c ≤ 'F' then some (c.toNat - 'A'.toNat + 10)
  else none

/-- Decode a single-character escape. -/
def escDecode (c : Char) : Option Char :=
  if c = '"' then some '"'
  else if c = '\\' then some '\\'
  else if c = '/' then some '/'
  else if c = 'b' then some (Char.ofNat 8)
  else if c = 'f' then some (Char.ofNat 12)
  else if c = 'n' then some '\n'
  else if c = 'r' then some '\r'
  else if c = 't' then some '\t'
  else none

/-- Parse a string body up to (and through) the closing quote, undoing
escapes; returns the decoded characters and the rest of the input. -/
def pStrBody : List Char → Option (List Char × List Char)
  | [] => none
  | c :: r =>
    if c = '"' then some ([], r)
    else if c = '\\' then
      match r with
      | [] => none
      | e :: r1 =>
        if e = 'u' then
          match r1 with
          | a :: b :: c2 :: d :: r2 =>
            match hexNib a, hexNib b, hexNib c2, hexNib d with
            | some x1, some x2, some x3, some x4 =>
              match pStrBody r2 with
              | some (scs, r3) =>
                  some (Char.ofNat (((x1 * 16 + x2) * 16 + x3) * 16 + x4) :: scs, r3)
              | none => none
            | _, _, _, _ => none
          | _ => none
        else
          match escDecode e with
          | some ec =>
            match pStrBody r1 with
            | some (scs, r2) => some (ec :: scs, r2)
            | none => none
          | none => none
    else
      match pStrBody r with
      | some (scs, r1) => some (c :: scs, r1)
      | none => none

/-- A nonempty digit run: the leading digit, the following digits, the rest. -/
def numInt : List Char → Option (List Char × List Char)
  | [] => none
  | c :: r =>
    if c.isDigit then some (c :: r.takeWhile Char.isDigit, r.dropWhile Char.isDigit)
    else none

/-- The optional fraction part `.digits`. -/
def numFrac : List Char → Option (List Char × List Char)
  | [] => some ([], [])
  | c :: r =>
    if c = '.' then
      match numInt r with
      | some (ds, r2) => some ('.' :: ds, r2)
      | none => none
    else some ([], c :: r)

/-- The optional exponent part `[eE][+-]?digits`. -/
def numExpo : List Char → Option (List Char × List Char)
  | [] => some ([], [])
  | c :: r =>
    if c = 'e' ∨ c = 'E' then
      match r with
      | [] => none
      | s :: r1 =>
        if s = '+' ∨ s = '-' then
          match numInt r1 with
          | some (ds, r2) => some (c :: s :: ds, r2)
          | none => none
        else
          match numInt (s :: r1) with
          | some (ds, r2) => some (c :: ds, r2)
          | none => none
    else some ([], c :: r)

/-- Scan a JSON number token `-?digits(.digits)?([eE][+-]?digits)?`,
returning the token characters verbatim and the rest of the input. -/
def numScan (cs : List Char) : Option (List Char × List Char) :=
  let sgncs : List Char × List Char :=
    match cs with
    | [] => ([], [])
    | c :: r => if c = '-' then (['-'], r) else ([], c :: r)
  match numInt sgncs.2 with
  | none => none
  | some (ip, cs2) =>
    match numFrac cs2 with
    | none => none
    | some (fp, cs3) =>
      match numExpo cs3 with
      | none => none
      | some (ep, cs4) => some ((sgncs.1 ++ ip ++ fp) ++ ep, cs4)

mutual

/-- Parse one JSON value (fuel-bounded recursive descent). -/
def pVal : Nat → List Char → Option (Json × List Char)
  | 0, _ => none
  | n + 1, cs =>
    match wsDrop cs with
    | [] => none
    | c :: r =>
      if c = '{' then
        match wsDrop r with
        | [] => none
        | c2 :: r2 =>
          if c2 = '}' then some (.obj [], r2)
          else
            match pFields n [] (c2 :: r2) with
            | some (fs, r3) => some (.obj fs, r3)
            | none => none
      else if c = '[' then
        match wsDrop r with
        | [] => none
        | c2 :: r2 =>
          if c2 = ']' then some (.arr [], r2)
          else
            match pItems n (c2 :: r2) with
            | some (xs, r3) => some (.arr xs, r3)
            | none => none
      else if c = '"' then
        match pStrBody r with
        | some (scs, r2) => some (.str ⟨scs⟩, r2)
        | none => none
      else if c = 'n' then
        match dropLit ['u', 'l', 'l'] r with
        | some r2 => some (.null, r2)
        | none => none
      else if c = 't' then
        match dropLit ['r', 'u', 'e'] r with
        | some r2 => some (.bool true, r2)
        | none => none
      else if c = 'f' then
        match dropLit ['a', 'l', 's', 'e'] r with
        | some r2 => some (.bool false, r2)
        | none => none
      else
        match numScan (c :: r) with
        | some (tok, r2) => some (.num ⟨tok⟩, r2)
        | none => none

/-- Parse one-or-more comma-separated array items through the closing `]`. -/
def pItems : Nat → List Char → Option (List Json × List Char)
  | 0, _ => none
  | n + 1, cs =>
    match pVal n cs with
    | none => none
    | some (v, r) =>
      match wsDrop r with
      | [] => none
      | c :: r2 =>
        if c = ',' then
          match pItems n r2 with
          | some (vs, r3) => some (v :: vs, r3)
          | none => none
        else if c = ']' then some ([v], r2)
        else none

/-- Parse one-or-more comma-separated object members through the closing `}`,
assembling them with JavaScript assignment semantics (`fieldSet`), so a
duplicate key takes the later value, as `JSON.parse` does. -/
def pFields : Nat → List (String × Json) → List Char → Option (List (String × Json) × List Char)
  | 0, _, _ => none
  | n + 1, acc, cs =>
    match wsDrop cs with
    | [] => none
    | c :: r =>
      if c = '"' then
        match pStrBody r with
        | none => none
        | some (kcs, r1) =>
          match wsDrop r1 with
          | [] => none
          | c2 :: r2 =>
            if c2 = ':' then
              match pVal n r2 with
              | none => none
              | some (v, r3) =>
                match wsDrop r3 with
                | [] => none
                | c3 :: r4 =>
                  if c3 = ',' then pFields n (fieldSet acc ⟨kcs⟩ v) r4
                  else if c3 = '}' then some (fieldSet acc ⟨kcs⟩ v, r4)
                  else none
            else none
      else none

end

/-- `JSON.parse` at the string level: `none` models a thrown `SyntaxError`
(only ever observed through `try`/`catch` in the sources). -/
def jsonParse (s : String) : Option Json :=
  match pVal (s.data.length + 1) s.data with
  | some (j, r) => if wsDrop r = [] then some j else none
  | none => none

example : jsonParse "null" = some .null := rfl
example : jsonParse " \x7b\"a\" : [1, true, \"x\"] \x7d " =
    some (.obj [("a", .arr [.num "1", .bool true, .str "x"])]) := rfl
example : jsonEncode (.obj [("a", .arr [.num "1", .bool true, .str "x"])]) =
    "\x7b\"a\":[1,true,\"x\"]\x7d" := rfl
example : jsonParse "\x7b\"a\":1,\"b\":2,\"a\":3\x7d" =
    some (.obj [("a", .num "3"), ("b", .num "2")]) := rfl
example : jsonParse "[1.5e-2,-0.25]" = some (.arr [.num "1.5e-2", .num "-0.25"]) := rfl
example : jsonParse "not json" = none := rfl

/-! ## JavaScript string primitives

The JavaScript string methods the sources use, modelled executably over the
character list of a `String` (JavaScript string indexing counts code units;
the model counts scalars uniformly). -/

/-- `s.startsWith(pre)`. -/
def jsStartsWith (s pre : String) : Bool := pre.data.isPrefixOf s.data

/-- `s.slice(n)`. -/
def jsSlice (s : String) (n : Nat) : String := ⟨s.data.drop n⟩

/-- `s.toUpperCase()` (ASCII; methods and header names are ASCII). -/
def jsUpper (s : String) : String := ⟨s.data.map Char.toUpper⟩

/-- Header-name lower-casing as done by the `Headers` constructor. -/
def jsLower (s : String) : String := ⟨s.data.map Char.toLower⟩

/-- `s.endsWith(post)`. -/
def jsEndsWith (s post : String) : Bool := post.data.isSuffixOf s.data

/-- Remove the last `n` characters (`s.replace(/\/$/, "")` removes one). -/
def jsDropLast (s : String) (n : Nat) : String := ⟨s.data.take (s.data.length - n)⟩

/-- `s.split(sep)` for a one-character separator. -/
def splitOnChar (sep : Char) : List Char → List (List Char)
  | [] => [[]]
  | c :: cs =>
    let r := splitOnChar sep cs
    if c = sep then [] :: r
    else
      match r with
      | g :: gs => (c :: g) :: gs
      | [] => [[c]]

/-! ## Configuration (`config.ts`, shape after `loadConfig` validation) -/

/-- The disposition a matched rule applies. -/
inductive RuleAction where
  | reject
  | silent
  | empty
deriving DecidableEq

/-- One configured rule; `methods` is upper-cased at load time and may
contain the wildcard `"*"`. -/
structure Rule where
  resource : String
  methods : List String
  action : RuleAction
deriving DecidableEq

structure UpstreamConfig where
  url : String
  bearer_token : Option String := none
deriving DecidableEq

structure ServerConfig where
  port : Nat := 8080
  base_path : Option String := none
deriving DecidableEq

structure TransformsConfig where
  inject_email_type : Option String := none
deriving DecidableEq

structure Config where
  upstream : UpstreamConfig
  server : ServerConfig
  rules : List Rule
  transforms : TransformsConfig
deriving DecidableEq

/-! ## Resource matcher (`extractResource`, `isRequestToCollection`) -/

/-- The regex `^(\/[^/]+)` of `extractResource`: a leading slash followed by
at least one non-slash character; the capture is the slash plus that run. -/
def extractCore (path : String) : Option String :=
  match path.data with
  | '/' :: rest =>
    match rest with
    | [] => none
    | c :: _ =>
      if c = '/' then none
      else some ⟨'/' :: rest.takeWhile (fun c => c ≠ '/')⟩
  | _ => none

/-- `extractResource(pathname, basePath?)`: strip a truthy base path as a
literal string prefix (returning `null` when it does not match), then apply
the resource regex. -/
def extractResource (pathname : String) (basePath : Option String := none) : Option String :=
  match basePath with
  | some b =>
    if b = "" then extractCore pathname
    else if jsStartsWith pathname b then extractCore (jsSlice pathname b.length)
    else none
  | none => extractCore pathname

/-- `isRequestToCollection(pathname, basePath?)`: a truthy base path is sliced
off unconditionally (no prefix check here), and the path is a collection when
it has at most one nonempty `/`-separated segment. -/
def isRequestToCollection (pathname : String) (basePath : Option String := none) : Bool :=
  let path :=
    match basePath with
    | some b => if b = "" then pathname else jsSlice pathname b.length
    | none => pathname
  decide (((splitOnChar '/' path.data).filter (fun s => s ≠ [])).length ≤ 1)

/-! ## Rule engine (`matchRule`) -/

/-- The `for` loop of `matchRule`: skip rules whose resource differs, return
the first rule whose methods contain `"*"` or the upper-cased method. -/
def scanRules (resource upperMethod : String) : List Rule → Option Rule
  | [] => none
  | rule :: rules =>
    if rule.resource ≠ resource then scanRules resource upperMethod rules
    else if rule.methods.contains "*" ∨ rule.methods.contains upperMethod then some rule
    else scanRules resource upperMethod rules

/-- `matchRule(pathname, method, rules, basePath?)`. -/
def matchRule (pathname method : String) (rules : List Rule)
    (basePath : Option String := none) : Option Rule :=
  match extractResource pathname basePath with
  | none => none
  | some resource => scanRules resource (jsUpper method) rules

/-! ## Responses -/

/-- What a successful upstream `fetch` resolved to. -/
structure UpstreamReply where
  status : Nat
  statusText : String
  headers : List (String × String)
  bodyStream : Option String
deriving DecidableEq

/-- What the upstream `fetch` did: resolve, or throw/reject.  A transport
failure carries `some message` when the thrown value was an `Error`, and
`none` otherwise. -/
inductive UpstreamOutcome where
  | reply (u : UpstreamReply)
  | transportFail (errMessage : Option String)
deriving DecidableEq

/-- A response produced by the proxy: either synthesized locally (status,
optional `Content-Type` header, optional JSON body) or the upstream reply
relayed verbatim. -/
inductive ProxyResponse where
  | synth (status : Nat) (contentType : Option String) (body : Option Json)
  | relay (u : UpstreamReply)

/-- Case-insensitive header lookup. -/
def headerGet (hs : List (String × String)) (k : String) : Option String :=
  (hs.find? (fun h => jsLower h.1 == k)).map Prod.snd

def ProxyResponse.statusOf : ProxyResponse → Nat
  | .synth s _ _ => s
  | .relay u => u.status

def ProxyResponse.contentTypeOf : ProxyResponse → Option String
  | .synth _ ct _ => ct
  | .relay u => headerGet u.headers "content-type"

def ProxyResponse.bodyOf : ProxyResponse → Option Json
  | .synth _ _ b => b
  | .relay _ => none

/-- A top-level field of a synthesized JSON body. -/
def ProxyResponse.fieldOf (r : ProxyResponse) (k : String) : Option Json :=
  match r.bodyOf with
  | some (.obj fs) => fieldGet fs k
  | _ => none

/-! ## Response synthesizer (`scimError`, `buildSilentResponse`,
`buildEmptyResponse`) -/

def SCIM_JSON : String := "application/scim+json"

def scimErrorSchema : String := "urn:ietf:params:scim:api:messages:2.0:Error"

def scimListSchema : String := "urn:ietf:params:scim:api:messages:2.0:ListResponse"

def scimUserSchema : String := "urn:ietf:params:scim:schemas:core:2.0:User"

/-- `scimError(status, detail)`: RFC 7644 error envelope with the numeric
status rendered as a decimal string. -/
def scimError (status : Nat) (detail : String) : ProxyResponse :=
  .synth status (some SCIM_JSON)
    (some (.obj [("schemas", .arr [.str scimErrorSchema]),
                 ("status", .str (toString status)),
                 ("detail", .str detail)]))

/-- The impure inputs of the synthesizer: `crypto.randomUUID()` and the two
`new Date().toISOString()` calls, supplied explicitly. -/
structure SynthEnv where
  freshId : String
  createdAt : String
  modifiedAt : String
deriving DecidableEq

/-- JavaScript object spread `...x` inside an object literal: an object
contributes its fields, an array its index-keyed elements, and primitives
(excluded by the `typeof body === "object" && body !== null` guard in the
sources) contribute nothing. -/
def spreadFields : Json → List (String × Json)
  | .obj fs => fs
  | .arr xs => xs.enum.map (fun p => (toString p.1, p.2))
  | _ => []

/-- A JavaScript object literal: later occurrences of a key overwrite the
value but keep the first occurrence's position. -/
def objLit (pairs : List (String × Json)) : List (String × Json) :=
  pairs.foldl (fun acc kv => fieldSet acc kv.1 kv.2) []

/-- The zero-result SCIM list envelope. -/
def emptyListEnvelope : Json :=
  .obj [("schemas", .arr [.str scimListSchema]),
        ("totalResults", .num "0"),
        ("Resources", .arr [])]

/-- The shared POST/PUT/PATCH stub of `buildSilentResponse`:
`{schemas, id, ...body, meta}`. -/
def silentWriteStub (body : Json) (meta : Json) (env : SynthEnv) : Json :=
  .obj (objLit (([("schemas", .arr [.str scimUserSchema]), ("id", .str env.freshId)]
      ++ spreadFields body) ++ [("meta", meta)]))

/-- `buildSilentResponse(method, body, pathname, basePath?)`. -/
def buildSilentResponse (method : String) (body : Json) (pathname : String)
    (basePath : Option String) (env : SynthEnv) : ProxyResponse :=
  let upper := jsUpper method
  let isCollection := isRequestToCollection pathname basePath
  if upper = "DELETE" then
    .synth 204 none none
  else if upper = "POST" then
    .synth 201 (some SCIM_JSON) (some (silentWriteStub body
      (.obj [("resourceType", .str "User"), ("created", .str env.createdAt),
             ("lastModified", .str env.modifiedAt), ("location", .str "")]) env))
  else if upper = "PUT" ∨ upper = "PATCH" then
    .synth 200 (some SCIM_JSON) (some (silentWriteStub body
      (.obj [("resourceType", .str "User"), ("lastModified", .str env.modifiedAt)]) env))
  else if isCollection then
    .synth 200 (some SCIM_JSON) (some emptyListEnvelope)
  else
    .synth 200 (some SCIM_JSON)
      (some (.obj [("schemas", .arr [.str scimUserSchema]), ("id", .str env.freshId)]))

/-- `buildEmptyResponse(method, pathname, body, basePath?)`. -/
def buildEmptyResponse (method pathname : String) (body : Json)
    (basePath : Option String) (env : SynthEnv) : ProxyResponse :=
  let upper := jsUpper method
  let isCollection := isRequestToCollection pathname basePath
  if upper = "DELETE" then
    .synth 204 none none
  else if upper = "POST" ∨ upper = "PUT" ∨ upper = "PATCH" then
    buildSilentResponse method body pathname basePath env
  else if isCollection then
    .synth 200 (some SCIM_JSON) (some emptyListEnvelope)
  else
    scimError 404 "Resource not found"

/-! ## Body transformer (`applyTransforms`) -/

/-- A JavaScript runtime fault escaping a modelled function: reading a
property of `null`, or (strict mode) creating a property on a primitive. -/
inductive JsFault where
  | typeFault
deriving DecidableEq

/-- `applyTransforms(bodyText, config)`.  Faithful to the source line by
line: a falsy `inject_email_type` or an unparsable body passes through;
`parsed["emails"]` throws on a `null` body (`.error`); a truthy non-object
first email makes the strict-mode assignment `first["type"] = emailType`
throw (`.error`); an array first email accepts the expando property but
`JSON.stringify` does not show it; an object first email with a falsy `type`
gets the configured value and the whole value is re-serialized. -/
def applyTransforms (bodyText : String) (config : Config) : Except JsFault String :=
  match config.transforms.inject_email_type with
  | none => .ok bodyText
  | some emailType =>
    if emailType = "" then .ok bodyText
    else
      match jsonParse bodyText with
      | none => .ok bodyText
      | some parsed =>
        match parsed with
        | .null => .error .typeFault
        | .obj pfs =>
          match fieldGet pfs "emails" with
          | some (.arr (first :: restEmails)) =>
            if jsTruthy first then
              match first with
              | .obj ffs =>
                match fieldGet ffs "type" with
                | some tv =>
                  if jsTruthy tv then .ok bodyText
                  else .ok (jsonEncode (.obj (fieldSet pfs "emails"
                    (.arr (.obj (fieldSet ffs "type" (.str emailType)) :: restEmails)))))
                | none => .ok (jsonEncode (.obj (fieldSet pfs "emails"
                    (.arr (.obj (fieldSet ffs "type" (.str emailType)) :: restEmails)))))
              | .arr _ => .ok (jsonEncode parsed)
              | _ => .error .typeFault
            else .ok bodyText
          | _ => .ok bodyText
        | _ => .ok bodyText

/-! ## Forwarder (`forwardRequest`) -/

/-- The inbound request as the handler sees it. -/
structure InboundRequest where
  method : String
  pathname : String
  search : String
  headers : List (String × String)
  hasBody : Bool
deriving DecidableEq

/-- The outbound request handed to the upstream `fetch`: the rewritten URL,
the method, the filtered headers, and the body (`some` = the captured body
text, `none` = the original stream). -/
structure OutboundRequest where
  url : String
  method : String
  headers : List (String × String)
  bodyText : Option String
deriving DecidableEq

/-- `Headers#delete` (header names are case-normalized on construction). -/
def headerDrop (hs : List (String × String)) (k : String) : List (String × String) :=
  hs.filter (fun h => h.1 ≠ k)

/-- `Headers#set`: overwrite in place or append. -/
def headerSet (hs : List (String × String)) (k v : String) : List (String × String) :=
  if hs.any (fun h => h.1 == k) then hs.map (fun h => if h.1 == k then (k, v) else h)
  else hs ++ [(k, v)]

/-- The outbound request `forwardRequest` builds: base-path prefix stripped
from the path, query preserved, one trailing slash stripped from the
upstream base URL, `host`/`connection` headers removed, and a configured
bearer token overwriting any caller `Authorization`. -/
def outboundRequest (req : InboundRequest) (config : Config)
    (bodyText : Option String) : OutboundRequest :=
  let path :=
    match config.server.base_path with
    | some b =>
      if b ≠ "" ∧ jsStartsWith req.pathname b then jsSlice req.pathname b.length
      else req.pathname
    | none => req.pathname
  let base :=
    if jsEndsWith config.upstream.url "/" then jsDropLast config.upstream.url 1
    else config.upstream.url
  let hs0 := req.headers.map (fun h => (jsLower h.1, h.2))
  let hs1 := headerDrop (headerDrop hs0 "host") "connection"
  let hs2 :=
    match config.upstream.bearer_token with
    | some tok => if tok ≠ "" then headerSet hs1 "authorization" ("Bearer " ++ tok) else hs1
    | none => hs1
  { url := (base ++ path) ++ req.search, method := req.method, headers := hs2,
    bodyText := bodyText }

/-- `err instanceof Error ? err.message : "upstream unreachable"`. -/
def failureMessage : Option String → String
  | some msg => msg
  | none => "upstream unreachable"

/-- `forwardRequest(req, config, bodyText?)`, with the upstream `fetch`
supplied as an oracle from the outbound request to its outcome: a resolved
reply is relayed verbatim; a thrown/rejected fetch is translated to a 502
SCIM error and never retried. -/
def forwardRequest (req : InboundRequest) (config : Config) (bodyText : Option String)
    (upstream : OutboundRequest → UpstreamOutcome) : ProxyResponse :=
  match upstream (outboundRequest req config bodyText) with
  | .reply u => .relay u
  | .transportFail em => scimError 502 ("Upstream error: " ++ failureMessage em)

/-! ## Request orchestrator (the `fetch` handler of `index.ts`) -/

/-- What one request produced: the response, whether the upstream fetch was
reached, and whether `applyTransforms` was invoked. -/
structure HandlerTrace where
  response : ProxyResponse
  upstreamContacted : Bool
  transformInvoked : Bool

/-- The matched-rule branch's body parse: a truthy captured body is parsed
with a catch that falls back to `null`; anything else is `null`. -/
def matchedBodyJson (bodyText : Option String) : Json :=
  match bodyText with
  | some t => if t = "" then .null else (jsonParse t).getD .null
  | none => .null

/-- The per-request orchestrator: read body once (`bodyText`), match a rule;
a matched rule dispatches on its action and never reaches transformation or
forwarding; otherwise the captured body (if truthy) is transformed and the
request forwarded. -/
def handleRequest (config : Config) (req : InboundRequest) (bodyText : Option String)
    (env : SynthEnv) (upstream : OutboundRequest → UpstreamOutcome) :
    Except JsFault HandlerTrace :=
  match matchRule req.pathname req.method config.rules config.server.base_path with
  | some rule =>
    let body : Json := matchedBodyJson bodyText
    let resp : ProxyResponse :=
      match rule.action with
      | .reject =>
        scimError 403 (("Operation " ++ req.method ++ " " ++ rule.resource)
          ++ " is not permitted")
      | .silent => buildSilentResponse req.method body req.pathname config.server.base_path env
      | .empty => buildEmptyResponse req.method req.pathname body config.server.base_path env
    .ok { response := resp, upstreamContacted := false, transformInvoked := false }
  | none =>
    match bodyText with
    | some t =>
      if t = "" then
        .ok { response := forwardRequest req config (some t) upstream,
              upstreamContacted := true, transformInvoked := false }
      else
        match applyTransforms t config with
        | .ok t2 =>
          .ok { response := forwardRequest req config (some t2) upstream,
                upstreamContacted := true, transformInvoked := true }
        | .error e => .error e
    | none =>
      .ok { response := forwardRequest req config none upstream,
            upstreamContacted := true, transformInvoked := false }

/-! ## Sanity checks (the repository's `proxy.test.ts` cases, evaluated) -/

/-- The rule list used by the repository's `matchRule` tests. -/
def testRules : List Rule :=
  [{ resource := "/Groups", methods := ["*"], action := .empty },
   { resource := "/Users", methods := ["DELETE"], action := .reject },
   { resource := "/Bulk", methods := ["POST"], action := .silent }]

/-- A configuration with only the email-type transform set. -/
def testConfig (inject : Option String) : Config :=
  { upstream := { url := "https://example.com" },
    server := {},
    rules := [],
    transforms := { inject_email_type := inject } }

example : extractResource "/Users" = some "/Users" := rfl
example : extractResource "/Users/abc-123" = some "/Users" := rfl
example : extractResource "/scim/v2/Groups" (some "/scim/v2") = some "/Groups" := rfl
example : extractResource "/scim/v2/Groups/xyz" (some "/scim/v2") = some "/Groups" := rfl
example : extractResource "/" = none := rfl
example : extractResource "/other/Users" (some "/scim/v2") = none := rfl

example : isRequestToCollection "/Users" = true := rfl
example : isRequestToCollection "/Users/abc-123" = false := rfl
example : isRequestToCollection "/scim/v2/Groups" (some "/scim/v2") = true := rfl
example : isRequestToCollection "/scim/v2/Groups/xyz" (some "/scim/v2") = false := rfl

example : (matchRule "/Groups" "GET" testRules).map Rule.action = some .empty := rfl
example : (matchRule "/Groups" "POST" testRules).map Rule.action = some .empty := rfl
example : (matchRule "/Users/abc" "DELETE" testRules).map Rule.action = some .reject := rfl
example : matchRule "/Users" "GET" testRules = none := rfl
example : matchRule "/ServiceProviderConfig" "GET" testRules = none := rfl
example : (matchRule "/scim/v2/Groups" "GET" testRules (some "/scim/v2")).map Rule.action
    = some .empty := rfl
example : (matchRule "/Users/abc" "delete" testRules).map Rule.action = some .reject := rfl
example : matchRule "/other/Groups" "GET" testRules (some "/scim/v2") = none := rfl

example :
    applyTransforms "\x7b\"userName\":\"test\",\"emails\":[\x7b\"value\":\"a@b.com\",\"primary\":true\x7d]\x7d"
      (testConfig (some "work"))
    = .ok "\x7b\"userName\":\"test\",\"emails\":[\x7b\"value\":\"a@b.com\",\"primary\":true,\"type\":\"work\"\x7d]\x7d" := rfl
example :
    applyTransforms "\x7b\"emails\":[\x7b\"value\":\"a@b.com\",\"type\":\"home\"\x7d]\x7d"
      (testConfig (some "work"))
    = .ok "\x7b\"emails\":[\x7b\"value\":\"a@b.com\",\"type\":\"home\"\x7d]\x7d" := rfl
example :
    applyTransforms "\x7b\"emails\":[\x7b\"value\":\"a@b.com\"\x7d]\x7d" (testConfig none)
    = .ok "\x7b\"emails\":[\x7b\"value\":\"a@b.com\"\x7d]\x7d" := rfl
example :
    applyTransforms "\x7b\"userName\":\"test\"\x7d" (testConfig (some "work"))
    = .ok "\x7b\"userName\":\"test\"\x7d" := rfl
example :
    applyTransforms "\x7b\"emails\":[]\x7d" (testConfig (some "work")) = .ok "\x7b\"emails\":[]\x7d" := rfl
example :
    applyTransforms "not json" (testConfig (some "work")) = .ok "not json" := rfl
example :
    applyTransforms "null" (testConfig (some "work")) = .error .typeFault := rfl

/-! ## C1: first-match rule evaluation -/

/-- The matching condition of the spec: the rule's resource equals the
extracted resource (exact, case-sensitive), and its methods contain the
wildcard or the upper-cased request method. -/
def ruleHit (resource upperMethod : String) (r : Rule) : Prop :=
  r.resource = resource ∧ ("*" ∈ r.methods ∨ upperMethod ∈ r.methods)

instance (resource upperMethod : String) (r : Rule) :
    Decidable (ruleHit resource upperMethod r) := by
  unfold ruleHit; infer_instance

/-- One step of the `matchRule` loop is a conditional on `ruleHit`. -/
theorem scanRules_cons (res um : String) (rule : Rule) (rules : List Rule) :
    scanRules res um (rule :: rules) =
      if ruleHit res um rule then some rule else scanRules res um rules := by
  simp only [scanRules, ruleHit, List.contains, List.elem_iff]
  by_cases h1 : rule.resource = res
  · by_cases h2 : "*" ∈ rule.methods ∨ um ∈ rule.methods
    · simp [h1, h2, List.elem_iff]
    · simp [h1, h2, List.elem_iff]
  · simp [h1]

/-- The loop returns exactly the first matching rule. -/
theorem scanRules_iff (res um : String) (rules : List Rule) (r : Rule) :
    scanRules res um rules = some r ↔
      ∃ i : Nat, rules[i]? = some r ∧ ruleHit res um r ∧
        ∀ j r', j < i → rules[j]? = some r' → ¬ ruleHit res um r' := by
  induction rules with
  | nil => simp [scanRules]
  | cons rule rules ih =>
    rw [scanRules_cons]
    by_cases h : ruleHit res um rule
    · simp only [if_pos h]
      constructor
      · intro hr
        obtain rfl : rule = r := by simpa using hr
        exact ⟨0, by simp, h, fun j r' hj _ => absurd hj (by omega)⟩
      · rintro ⟨i, hi, hr, hmin⟩
        cases i with
        | zero =>
          obtain rfl : rule = r := by simpa using hi
          rfl
        | succ i => exact absurd h (hmin 0 rule (by omega) (by simp))
    · simp only [if_neg h]
      rw [ih]
      constructor
      · rintro ⟨i, hi, hr, hmin⟩
        refine ⟨i + 1, by simpa using hi, hr, fun j r' hj hj2 => ?_⟩
        cases j with
        | zero =>
          obtain rfl : rule = r' := by simpa using hj2
          exact h
        | succ j => exact hmin j r' (by omega) (by simpa using hj2)
      · rintro ⟨i, hi, hr, hmin⟩
        cases i with
        | zero =>
          obtain rfl : rule = r := by simpa using hi
          exact absurd hr h
        | succ i =>
          exact ⟨i, by simpa using hi, hr, fun j r' hj hj2 =>
            hmin (j + 1) r' (by omega) (by simpa using hj2)⟩

/-- **C1.**  `matchRule` returns the first rule (in configuration order)
whose resource equals the extracted resource and whose methods contain `"*"`
or the upper-cased method; it returns `none` whenever resource extraction
yields none, and in particular whenever a configured base path is not a
prefix of the path. -/
theorem matchRule_first_match_spec (p m : String) (rules : List Rule) (b : Option String) :
    (∀ r, matchRule p m rules b = some r ↔
      ∃ res, extractResource p b = some res ∧ ruleHit res (jsUpper m) r ∧
        ∃ i : Nat, rules[i]? = some r ∧
          ∀ j r', j < i → rules[j]? = some r' → ¬ ruleHit res (jsUpper m) r')
    ∧ (extractResource p b = none → matchRule p m rules b = none)
    ∧ (∀ bp, b = some bp → jsStartsWith p bp = false → matchRule p m rules b = none) := by
  refine ⟨?_, ?_, ?_⟩
  · intro r
    cases hres : extractResource p b with
    | none => simp [matchRule, hres]
    | some res =>
      have hm : matchRule p m rules b = scanRules res (jsUpper m) rules := by
        simp [matchRule, hres]
      rw [hm, scanRules_iff]
      constructor
      · rintro ⟨i, hi, hr, hmin⟩
        exact ⟨res, rfl, hr, i, hi, hmin⟩
      · rintro ⟨res', hres', hr, i, hi, hmin⟩
        obtain rfl : res = res' := Option.some.inj hres'
        exact ⟨i, hi, hr, hmin⟩
  · intro h
    simp [matchRule, h]
  · rintro bp rfl hpre
    have hres : extractResource p (some bp) = none := by
      by_cases hb : bp = ""
      · subst hb
        have hd : ("" : String).data = ([] : List Char) := rfl
        have htrue : jsStartsWith p "" = true := by
          unfold jsStartsWith
          rw [hd]
          exact List.isPrefixOf_nil_left
        exact absurd (htrue ▸ hpre) (by decide)
      · simp [extractResource, hb, hpre]
    simp [matchRule, hres]

/-- Witness for C1: the base-path mismatch case and the wildcard
case-insensitive match, discharged through the theorem at concrete inputs. -/
theorem matchRule_first_match_spec_witness :
    matchRule "/other/Groups" "GET" testRules (some "/scim/v2") = none ∧
    matchRule "/Groups" "delete" testRules none
      = some { resource := "/Groups", methods := ["*"], action := .empty } := by
  constructor
  · exact (matchRule_first_match_spec "/other/Groups" "GET" testRules (some "/scim/v2")).2.2
      "/scim/v2" rfl (by decide)
  · exact ((matchRule_first_match_spec "/Groups" "delete" testRules none).1 _).mpr
      ⟨"/Groups", rfl, ⟨rfl, Or.inl (by decide)⟩, 0, rfl,
        fun j r' hj _ => absurd hj (by omega)⟩

/-! ## Association-list lemmas for the object-literal semantics -/

theorem fieldGet_fieldSet_self (fs : List (String × Json)) (k : String) (v : Json) :
    fieldGet (fieldSet fs k v) k = some v := by
  induction fs with
  | nil => simp [fieldSet, fieldGet]
  | cons f fs ih =>
    obtain ⟨k', v'⟩ := f
    by_cases h : k' = k
    · simp [fieldSet, fieldGet, h]
    · simp [fieldSet, fieldGet, h, ih]

theorem fieldGet_fieldSet_other (fs : List (String × Json)) (k : String) (v : Json)
    (k' : String) (h : k' ≠ k) :
    fieldGet (fieldSet fs k v) k' = fieldGet fs k' := by
  induction fs with
  | nil => simp [fieldSet, fieldGet, Ne.symm h]
  | cons f fs ih =>
    obtain ⟨k0, v0⟩ := f
    by_cases h0 : k0 = k
    · subst h0
      simp [fieldSet, fieldGet, Ne.symm h, h]
    · by_cases h1 : k0 = k'
      · simp [fieldSet, fieldGet, h0, h1, h]
      · simp [fieldSet, fieldGet, h0, h1, ih]

theorem fieldGet_eq_none_iff (fs : List (String × Json)) (k : String) :
    fieldGet fs k = none ↔ k ∉ fs.map Prod.fst := by
  induction fs with
  | nil => simp [fieldGet]
  | cons f fs ih =>
    obtain ⟨k0, v0⟩ := f
    by_cases h : k0 = k
    · simp [fieldGet, h]
    · simp [fieldGet, h, ih, Ne.symm h]

/-- Folding members whose keys avoid `k` leaves the value at `k` alone. -/
theorem foldl_fieldSet_absent (fs : List (String × Json)) (acc : List (String × Json))
    (k : String) (h : k ∉ fs.map Prod.fst) :
    fieldGet (fs.foldl (fun a p => fieldSet a p.1 p.2) acc) k = fieldGet acc k := by
  induction fs generalizing acc with
  | nil => simp
  | cons f fs ih =>
    obtain ⟨k0, v0⟩ := f
    simp only [List.map_cons, List.mem_cons] at h
    push_neg at h
    simp only [List.foldl_cons]
    rw [ih _ h.2, fieldGet_fieldSet_other acc k0 v0 k h.1]

/-- With duplicate-free keys, folding the members makes each member's value
win at its key, whatever the accumulator held. -/
theorem foldl_fieldSet_get (fs : List (String × Json)) (acc : List (String × Json))
    (k : String) (v : Json) (hnd : (fs.map Prod.fst).Nodup)
    (h : fieldGet fs k = some v) :
    fieldGet (fs.foldl (fun a p => fieldSet a p.1 p.2) acc) k = some v := by
  induction fs generalizing acc with
  | nil => simp [fieldGet] at h
  | cons f fs ih =>
    obtain ⟨k0, v0⟩ := f
    simp only [List.map_cons, List.nodup_cons] at hnd
    simp only [List.foldl_cons]
    by_cases hk : k0 = k
    · subst hk
      rw [fieldGet] at h
      simp only [if_pos rfl] at h
      obtain rfl : v0 = v := Option.some.inj h
      rw [foldl_fieldSet_absent _ _ _ hnd.1, fieldGet_fieldSet_self]
    · rw [fieldGet] at h
      simp only [if_neg hk] at h
      exact ih _ hnd.2 h

/-! ## C3: the `empty` action on GET requests -/

/-- **C3.**  For a GET request, `buildEmptyResponse` answers a singleton path
with a 404 SCIM error whose detail is "Resource not found", and a collection
path with a 200 list envelope reporting `totalResults` 0 and empty
`Resources`. -/
theorem buildEmptyResponse_get_spec (method pathname : String) (body : Json)
    (basePath : Option String) (env : SynthEnv) (hm : jsUpper method = "GET") :
    (isRequestToCollection pathname basePath = false →
      buildEmptyResponse method pathname body basePath env
        = scimError 404 "Resource not found" ∧
      (buildEmptyResponse method pathname body basePath env).statusOf = 404 ∧
      (buildEmptyResponse method pathname body basePath env).fieldOf "detail"
        = some (.str "Resource not found"))
    ∧ (isRequestToCollection pathname basePath = true →
      (buildEmptyResponse method pathname body basePath env).statusOf = 200 ∧
      (buildEmptyResponse method pathname body basePath env).fieldOf "totalResults"
        = some (.num "0") ∧
      (buildEmptyResponse method pathname body basePath env).fieldOf "Resources"
        = some (.arr [])) := by
  constructor
  · intro hc
    have he : buildEmptyResponse method pathname body basePath env
        = scimError 404 "Resource not found" := by
      simp [buildEmptyResponse, hm, hc]
    refine ⟨he, ?_, ?_⟩ <;>
      simp [he, scimError, ProxyResponse.statusOf, ProxyResponse.fieldOf,
        ProxyResponse.bodyOf, fieldGet]
  · intro hc
    have he : buildEmptyResponse method pathname body basePath env
        = .synth 200 (some SCIM_JSON) (some emptyListEnvelope) := by
      simp [buildEmptyResponse, hm, hc]
    refine ⟨?_, ?_, ?_⟩ <;>
      simp [he, emptyListEnvelope, ProxyResponse.statusOf, ProxyResponse.fieldOf,
        ProxyResponse.bodyOf, fieldGet]

/-- Witness for C3: the spec's own scenario, rule
`{resource:"/Groups", methods:["*"], action:"empty"}` with `GET /Groups/xyz`
(404) and `GET /Groups` (200, zero results). -/
theorem buildEmptyResponse_get_spec_witness :
    buildEmptyResponse "GET" "/Groups/xyz" .null none
        { freshId := "u1", createdAt := "t1", modifiedAt := "t2" }
      = scimError 404 "Resource not found" ∧
    (buildEmptyResponse "GET" "/Groups" .null none
        { freshId := "u1", createdAt := "t1", modifiedAt := "t2" }).fieldOf "totalResults"
      = some (.num "0") := by
  constructor
  · exact ((buildEmptyResponse_get_spec "GET" "/Groups/xyz" .null none
      { freshId := "u1", createdAt := "t1", modifiedAt := "t2" } (by decide)).1 (by decide)).1
  · exact ((buildEmptyResponse_get_spec "GET" "/Groups" .null none
      { freshId := "u1", createdAt := "t1", modifiedAt := "t2" } (by decide)).2 (by decide)).2.1

/-! ## C4: content-type of synthesized responses -/

/-- A fixed synthesizer environment for concrete evaluations. -/
def sampleEnv : SynthEnv :=
  { freshId := "00000000-0000-4000-8000-000000000000",
    createdAt := "2024-01-01T00:00:00.000Z",
    modifiedAt := "2024-01-01T00:00:00.000Z" }

/-- **C4 counterexample.**  The synthesized 204 DELETE response is built as
`new Response(null, { status: 204 })` with no headers, so it does not carry
the content-type `application/scim+json` (it has no content-type at all) —
refuting the claim's "including the 204 DELETE responses". -/
theorem delete204_lacks_content_type :
    (buildSilentResponse "DELETE" .null "/Users/abc" none sampleEnv).contentTypeOf = none ∧
    ¬ (buildSilentResponse "DELETE" .null "/Users/abc" none sampleEnv).contentTypeOf
        = some "application/scim+json" ∧
    (buildEmptyResponse "DELETE" "/Groups/abc" .null none sampleEnv).contentTypeOf = none := by
  have h0 : (buildSilentResponse "DELETE" .null "/Users/abc" none sampleEnv).contentTypeOf
      = none := rfl
  refine ⟨h0, ?_, rfl⟩
  intro h
  rw [h0] at h
  exact Option.noConfusion h

/-- **C4 (amended).**  Every synthesized response except the bodyless 204
DELETE responses carries content-type `application/scim+json`: all
`scimError` responses do, and all `buildSilentResponse` /
`buildEmptyResponse` results for non-DELETE methods do; the DELETE results
are `204` with no content-type header and no body. -/
theorem synth_content_type_spec :
    (∀ status detail, (scimError status detail).contentTypeOf = some SCIM_JSON)
    ∧ (∀ method body pathname basePath env, jsUpper method ≠ "DELETE" →
        (buildSilentResponse method body pathname basePath env).contentTypeOf
          = some SCIM_JSON)
    ∧ (∀ method pathname body basePath env, jsUpper method ≠ "DELETE" →
        (buildEmptyResponse method pathname body basePath env).contentTypeOf
          = some SCIM_JSON)
    ∧ (∀ method body pathname basePath env, jsUpper method = "DELETE" →
        buildSilentResponse method body pathname basePath env = .synth 204 none none
        ∧ buildEmptyResponse method pathname body basePath env = .synth 204 none none) := by
  have hsil : ∀ method body pathname basePath env, jsUpper method ≠ "DELETE" →
      (buildSilentResponse method body pathname basePath env).contentTypeOf
        = some SCIM_JSON := by
    intro method body pathname basePath env hm
    unfold buildSilentResponse
    simp only [if_neg hm]
    split_ifs <;> rfl
  refine ⟨fun status detail => rfl, hsil, ?_, ?_⟩
  · intro method pathname body basePath env hm
    unfold buildEmptyResponse
    simp only [if_neg hm]
    split_ifs with h1 h2
    · exact hsil method body pathname basePath env hm
    · rfl
    · rfl
  · intro method body pathname basePath env hm
    constructor
    · unfold buildSilentResponse
      simp [hm]
    · unfold buildEmptyResponse
      simp [hm]

/-- Witness for C4: the amended theorem applied at concrete non-DELETE and
DELETE inputs. -/
theorem synth_content_type_spec_witness :
    (buildSilentResponse "GET" .null "/Users" none sampleEnv).contentTypeOf
      = some SCIM_JSON ∧
    (buildEmptyResponse "post" "/Groups" .null none sampleEnv).contentTypeOf
      = some SCIM_JSON ∧
    buildSilentResponse "delete" .null "/Users/abc" none sampleEnv = .synth 204 none none :=
  ⟨synth_content_type_spec.2.1 "GET" .null "/Users" none sampleEnv (by decide),
   synth_content_type_spec.2.2.1 "post" "/Groups" .null none sampleEnv (by decide),
   (synth_content_type_spec.2.2.2 "delete" .null "/Users/abc" none sampleEnv (by decide)).1⟩

/-! ## C9: silent GET on a singleton path -/

/-- **C9.**  A silent GET on a singleton path yields HTTP 200 with the
minimal stub object: the mandatory schema declaration plus exactly one data
field, the freshly generated identifier. -/
theorem silent_get_singleton_stub (method pathname : String) (body : Json)
    (basePath : Option String) (env : SynthEnv)
    (hm : jsUpper method = "GET")
    (hc : isRequestToCollection pathname basePath = false) :
    buildSilentResponse method body pathname basePath env
      = .synth 200 (some SCIM_JSON)
          (some (.obj [("schemas", .arr [.str scimUserSchema]),
                       ("id", .str env.freshId)])) := by
  simp [buildSilentResponse, hm, hc]

/-- Witness for C9 at `GET /Groups/abc`. -/
theorem silent_get_singleton_stub_witness :
    buildSilentResponse "GET" .null "/Groups/abc" none sampleEnv
      = .synth 200 (some SCIM_JSON)
          (some (.obj [("schemas", .arr [.str scimUserSchema]),
                       ("id", .str sampleEnv.freshId)])) :=
  silent_get_singleton_stub "GET" "/Groups/abc" .null none sampleEnv (by decide) (by decide)

/-! ## C10: merge precedence inside the silent write stubs -/

/-- The meta block the silent synthesizer generates for a write method. -/
def silentMeta (method : String) (env : SynthEnv) : Json :=
  if jsUpper method = "POST" then
    .obj [("resourceType", .str "User"), ("created", .str env.createdAt),
          ("lastModified", .str env.modifiedAt), ("location", .str "")]
  else
    .obj [("resourceType", .str "User"), ("lastModified", .str env.modifiedAt)]

/-- Field anatomy of `{schemas, id, ...body, meta}` for an object body with
duplicate-free keys: caller fields survive at every key except `meta`, the
`meta` key always holds the synthesized block, and absent caller `id` /
`schemas` keep their generated values. -/
theorem silentWriteStub_fields (fs : List (String × Json)) (meta : Json) (env : SynthEnv)
    (hnd : (fs.map Prod.fst).Nodup) :
    ∃ stub, silentWriteStub (.obj fs) meta env = .obj stub ∧
      (∀ k v, k ≠ "meta" → fieldGet fs k = some v → fieldGet stub k = some v) ∧
      fieldGet stub "meta" = some meta ∧
      (fieldGet fs "id" = none → fieldGet stub "id" = some (.str env.freshId)) ∧
      (fieldGet fs "schemas" = none →
        fieldGet stub "schemas" = some (.arr [.str scimUserSchema])) := by
  have hstub : silentWriteStub (.obj fs) meta env
      = .obj (objLit (([("schemas", Json.arr [Json.str scimUserSchema]),
          ("id", Json.str env.freshId)] ++ fs) ++ [("meta", meta)])) := rfl
  have hsplit : objLit (([("schemas", Json.arr [Json.str scimUserSchema]),
        ("id", Json.str env.freshId)] ++ fs) ++ [("meta", meta)])
      = fieldSet (fs.foldl (fun a p => fieldSet a p.1 p.2)
          (objLit [("schemas", Json.arr [Json.str scimUserSchema]),
            ("id", Json.str env.freshId)])) "meta" meta := by
    unfold objLit
    rw [List.foldl_append, List.foldl_append]
    rfl
  refine ⟨_, hstub, ?_, ?_, ?_, ?_⟩
  · intro k v hk hv
    rw [hsplit, fieldGet_fieldSet_other _ _ _ _ hk]
    exact foldl_fieldSet_get fs _ k v hnd hv
  · rw [hsplit, fieldGet_fieldSet_self]
  · intro hid
    rw [hsplit, fieldGet_fieldSet_other _ _ _ _ (by decide)]
    rw [foldl_fieldSet_absent fs _ _ ((fieldGet_eq_none_iff fs "id").mp hid)]
    rfl
  · intro hsc
    rw [hsplit, fieldGet_fieldSet_other _ _ _ _ (by decide)]
    rw [foldl_fieldSet_absent fs _ _ ((fieldGet_eq_none_iff fs "schemas").mp hsc)]
    rfl

/-- **C10.**  In the POST/PUT/PATCH silent stubs, caller-supplied fields win
over the generated `schemas` and `id` (a caller `id` replaces the fresh
identifier), while the synthesized `meta` block always replaces any caller
`meta`; absent caller `id`/`schemas` keep the generated values. -/
theorem silent_stub_merge_precedence (method pathname : String) (basePath : Option String)
    (env : SynthEnv) (fs : List (String × Json))
    (hnd : (fs.map Prod.fst).Nodup)
    (hm : jsUpper method = "POST" ∨ jsUpper method = "PUT" ∨ jsUpper method = "PATCH") :
    ∃ stub : List (String × Json),
      (buildSilentResponse method (.obj fs) pathname basePath env).bodyOf
        = some (.obj stub) ∧
      (∀ k v, k ≠ "meta" → fieldGet fs k = some v → fieldGet stub k = some v) ∧
      fieldGet stub "meta" = some (silentMeta method env) ∧
      (fieldGet fs "id" = none → fieldGet stub "id" = some (.str env.freshId)) ∧
      (fieldGet fs "schemas" = none →
        fieldGet stub "schemas" = some (.arr [.str scimUserSchema])) := by
  obtain ⟨stub, hs, hkeep, hmeta, hid, hsc⟩ :=
    silentWriteStub_fields fs (silentMeta method env) env hnd
  refine ⟨stub, ?_, hkeep, hmeta, hid, hsc⟩
  rcases hm with h | h | h
  · have hbody : buildSilentResponse method (.obj fs) pathname basePath env
        = .synth 201 (some SCIM_JSON)
            (some (silentWriteStub (.obj fs) (silentMeta method env) env)) := by
      simp [buildSilentResponse, silentMeta, h]
    rw [hbody, hs]
    rfl
  · have hbody : buildSilentResponse method (.obj fs) pathname basePath env
        = .synth 200 (some SCIM_JSON)
            (some (silentWriteStub (.obj fs) (silentMeta method env) env)) := by
      simp [buildSilentResponse, silentMeta, h]
    rw [hbody, hs]
    rfl
  · have hbody : buildSilentResponse method (.obj fs) pathname basePath env
        = .synth 200 (some SCIM_JSON)
            (some (silentWriteStub (.obj fs) (silentMeta method env) env)) := by
      simp [buildSilentResponse, silentMeta, h]
    rw [hbody, hs]
    rfl

/-- Witness for C10: a POST body carrying its own `id` and `meta`; the
response keeps the caller `id` and overwrites the caller `meta`. -/
theorem silent_stub_merge_precedence_witness :
    ∃ stub : List (String × Json),
      (buildSilentResponse "POST"
          (.obj [("id", .str "caller-id"), ("meta", .bool true),
                 ("displayName", .str "Test")])
          "/Users" none sampleEnv).bodyOf = some (.obj stub) ∧
      fieldGet stub "id" = some (.str "caller-id") ∧
      fieldGet stub "meta" = some (silentMeta "POST" sampleEnv) ∧
      fieldGet stub "displayName" = some (.str "Test") := by
  obtain ⟨stub, hs, hkeep, hmeta, hid, hsc⟩ :=
    silent_stub_merge_precedence "POST" "/Users" none sampleEnv
      [("id", .str "caller-id"), ("meta", .bool true), ("displayName", .str "Test")]
      (by decide) (Or.inl (by decide))
  exact ⟨stub, hs, hkeep "id" _ (by decide) rfl, hmeta,
    hkeep "displayName" _ (by decide) rfl⟩

/-! ## C8: the reject action -/

/-- **C8.**  A request matched by a reject rule is answered 403 with detail
`"Operation <METHOD> <resource> is not permitted"`, where `<METHOD>` is the
request method as sent and `<resource>` the matched rule's resource. -/
theorem reject_response_spec (config : Config) (req : InboundRequest)
    (bodyText : Option String) (env : SynthEnv)
    (upstream : OutboundRequest → UpstreamOutcome) (r : Rule)
    (hr : matchRule req.pathname req.method config.rules config.server.base_path = some r)
    (ha : r.action = .reject) :
    ∃ tr, handleRequest config req bodyText env upstream = .ok tr ∧
      tr.response = scimError 403 (("Operation " ++ req.method ++ " " ++ r.resource)
        ++ " is not permitted") ∧
      tr.response.statusOf = 403 ∧
      tr.response.fieldOf "detail"
        = some (.str (("Operation " ++ req.method ++ " " ++ r.resource)
            ++ " is not permitted")) := by
  have hh : handleRequest config req bodyText env upstream
      = .ok { response := scimError 403 (("Operation " ++ req.method ++ " " ++ r.resource)
                ++ " is not permitted"),
              upstreamContacted := false, transformInvoked := false } := by
    simp only [handleRequest, hr, ha]
  exact ⟨_, hh, rfl, rfl, rfl⟩

/-- A configuration with the spec's single reject rule for `/Users` DELETE. -/
def rejectConfig : Config :=
  { upstream := { url := "https://example.com" },
    server := {},
    rules := [{ resource := "/Users", methods := ["DELETE"], action := .reject }],
    transforms := {} }

/-- An upstream oracle that always fails with an `Error` of message "boom". -/
def boomUpstream : OutboundRequest → UpstreamOutcome :=
  fun _ => .transportFail (some "boom")

/-- Witness for C8: the spec's scenario `DELETE /Users/abc` under
`rejectConfig` yields 403 with detail
`"Operation DELETE /Users is not permitted"`. -/
theorem reject_response_spec_witness :
    ∃ tr, handleRequest rejectConfig
        { method := "DELETE", pathname := "/Users/abc", search := "",
          headers := [], hasBody := false }
        none sampleEnv boomUpstream = .ok tr ∧
      tr.response.statusOf = 403 ∧
      tr.response.fieldOf "detail"
        = some (.str "Operation DELETE /Users is not permitted") := by
  obtain ⟨tr, h1, _, h3, h4⟩ := reject_response_spec rejectConfig
    { method := "DELETE", pathname := "/Users/abc", search := "",
      headers := [], hasBody := false }
    none sampleEnv boomUpstream
    { resource := "/Users", methods := ["DELETE"], action := .reject }
    (by decide) rfl
  exact ⟨tr, h1, h3, by rw [h4]; rfl⟩

/-! ## C2: a matched rule short-circuits transformation and forwarding -/

/-- **C2.**  When a rule matches, the handler returns the response
synthesized for the rule's action, with the upstream never contacted and the
transformer never invoked; conversely, any trace that contacted the upstream
or invoked the transformer came from a request no rule matched. -/
theorem handler_match_short_circuit (config : Config) (req : InboundRequest)
    (bodyText : Option String) (env : SynthEnv)
    (upstream : OutboundRequest → UpstreamOutcome) :
    (∀ r, matchRule req.pathname req.method config.rules config.server.base_path = some r →
      handleRequest config req bodyText env upstream
        = .ok { response :=
                  match r.action with
                  | .reject => scimError 403 (("Operation " ++ req.method ++ " " ++ r.resource)
                      ++ " is not permitted")
                  | .silent => buildSilentResponse req.method (matchedBodyJson bodyText)
                      req.pathname config.server.base_path env
                  | .empty => buildEmptyResponse req.method req.pathname
                      (matchedBodyJson bodyText) config.server.base_path env,
                upstreamContacted := false, transformInvoked := false })
    ∧ (∀ tr, handleRequest config req bodyText env upstream = .ok tr →
        (tr.upstreamContacted = true ∨ tr.transformInvoked = true) →
        matchRule req.pathname req.method config.rules config.server.base_path = none) := by
  constructor
  · intro r hr
    simp only [handleRequest, hr]
  · intro tr htr hor
    cases hmr : matchRule req.pathname req.method config.rules config.server.base_path with
    | none => rfl
    | some r =>
      simp only [handleRequest, hmr] at htr
      obtain rfl : _ = tr := Except.ok.inj htr
      rcases hor with h | h <;> exact Bool.noConfusion h

/-- Witness for C2: a silent rule on `/Bulk` POST; the handler's result is
exactly the synthesized silent response with both effect flags off. -/
theorem handler_match_short_circuit_witness :
    handleRequest
      { upstream := { url := "https://example.com" }, server := {},
        rules := [{ resource := "/Bulk", methods := ["POST"], action := .silent }],
        transforms := {} }
      { method := "POST", pathname := "/Bulk", search := "", headers := [],
        hasBody := true }
      (some "\x7b\x7d") sampleEnv boomUpstream
    = .ok { response := buildSilentResponse "POST" (matchedBodyJson (some "\x7b\x7d"))
              "/Bulk" none sampleEnv,
            upstreamContacted := false, transformInvoked := false } :=
  (handler_match_short_circuit _ _ (some "\x7b\x7d") sampleEnv boomUpstream).1
    { resource := "/Bulk", methods := ["POST"], action := .silent } (by decide)

/-! ## C5: upstream transport failure translation -/

theorem isPrefixOf_self_append (l r : List Char) : l.isPrefixOf (l ++ r) = true := by
  induction l with
  | nil => simp
  | cons a l ih => simp [List.isPrefixOf_cons₂, ih]

/-- A string starts with itself before any suffix. -/
theorem jsStartsWith_append_self (a b : String) : jsStartsWith (a ++ b) a = true := by
  unfold jsStartsWith
  rw [String.data_append]
  exact isPrefixOf_self_append _ _

/-- **C5.**  When the upstream fetch throws or rejects, `forwardRequest`
returns (rather than raises) the SCIM error with status 502 and detail
`"Upstream error: " ++ message`, where the message is the thrown `Error`'s
message or `"upstream unreachable"` for a non-`Error` throw; the single
upstream outcome fully determines the response (no retry). -/
theorem forwardRequest_transport_failure_502 (req : InboundRequest) (config : Config)
    (bodyText : Option String) (upstream : OutboundRequest → UpstreamOutcome)
    (em : Option String)
    (h : upstream (outboundRequest req config bodyText) = .transportFail em) :
    forwardRequest req config bodyText upstream
      = scimError 502 ("Upstream error: " ++ failureMessage em)
    ∧ (forwardRequest req config bodyText upstream).statusOf = 502
    ∧ ∃ d, (forwardRequest req config bodyText upstream).fieldOf "detail"
        = some (.str d) ∧ jsStartsWith d "Upstream error: " = true := by
  have hf : forwardRequest req config bodyText upstream
      = scimError 502 ("Upstream error: " ++ failureMessage em) := by
    unfold forwardRequest
    rw [h]
  exact ⟨hf, by rw [hf]; rfl, "Upstream error: " ++ failureMessage em,
    by rw [hf]; rfl, jsStartsWith_append_self _ _⟩

/-- Witness for C5: a concrete request through a failing upstream yields the
502 with detail `"Upstream error: boom"`. -/
theorem forwardRequest_transport_failure_502_witness :
    forwardRequest
      { method := "GET", pathname := "/Users", search := "", headers := [],
        hasBody := false }
      rejectConfig none boomUpstream
    = scimError 502 "Upstream error: boom" := by
  have h := (forwardRequest_transport_failure_502
    { method := "GET", pathname := "/Users", search := "", headers := [],
      hasBody := false }
    rejectConfig none boomUpstream (some "boom") rfl).1
  rw [h]
  rfl

/-! ## Codec round-trip, stage 1: number tokens

A rest-input "stops" a number when its first character cannot extend a
number token; every delimiter the encoder emits after a value (`,`, `]`,
`}`, end of input) qualifies. -/

def stopsNum : List Char → Bool
  | [] => true
  | c :: _ => !(c.isDigit || c == '.' || c == 'e' || c == 'E')

theorem stopsNum_head {c : Char} {t : List Char} (h : stopsNum (c :: t) = true) :
    c.isDigit = false ∧ c ≠ '.' ∧ c ≠ 'e' ∧ c ≠ 'E' := by
  simp only [stopsNum, Bool.not_eq_true', Bool.or_eq_false_iff, beq_eq_false_iff_ne] at h
  exact ⟨h.1.1.1, h.1.1.2, h.1.2, h.2⟩

theorem takeWhile_extend {p : Char → Bool} (l r : List Char) (hl : ∀ c ∈ l, p c = true)
    (hr : ∀ c, r.head? = some c → p c = false) :
    (l ++ r).takeWhile p = l := by
  induction l with
  | nil =>
    cases r with
    | nil => rfl
    | cons c r' => simp [List.takeWhile_cons, hr c rfl]
  | cons a l ih =>
    simp [List.takeWhile_cons, hl a (by simp), ih (fun c hc => hl c (by simp [hc]))]

theorem dropWhile_extend {p : Char → Bool} (l r : List Char) (hl : ∀ c ∈ l, p c = true)
    (hr : ∀ c, r.head? = some c → p c = false) :
    (l ++ r).dropWhile p = r := by
  induction l with
  | nil =>
    cases r with
    | nil => rfl
    | cons c r' => simp [List.dropWhile_cons, hr c rfl]
  | cons a l ih =>
    simp [List.dropWhile_cons, hl a (by simp), ih (fun c hc => hl c (by simp [hc]))]

theorem head_dropWhile_false {p : Char → Bool} (l : List Char) :
    ∀ c, (l.dropWhile p).head? = some c → p c = false := by
  induction l with
  | nil => intro c hc; cases hc
  | cons a l ih =>
    intro c hc
    rw [List.dropWhile_cons] at hc
    by_cases ha : p a
    · rw [if_pos ha] at hc
      exact ih c hc
    · rw [if_neg ha] at hc
      obtain rfl : a = c := by simpa using hc
      simpa using ha

/-- What a successful `numInt` tells: it consumed a nonempty digit run up to
the first non-digit. -/
theorem numInt_inv {cs ds r : List Char} (h : numInt cs = some (ds, r)) :
    cs = ds ++ r ∧ ds ≠ [] ∧ (∀ c ∈ ds, c.isDigit = true)
    ∧ (∀ c, r.head? = some c → c.isDigit = false) := by
  cases cs with
  | nil => exact absurd h (by simp [numInt])
  | cons c cs =>
    by_cases hd : c.isDigit
    · simp only [numInt, if_pos hd, Option.some.injEq, Prod.mk.injEq] at h
      obtain ⟨rfl, rfl⟩ := h
      refine ⟨by simp [List.takeWhile_append_dropWhile], by simp, ?_, ?_⟩
      · intro x hx
        rcases List.mem_cons.mp hx with rfl | hx
        · exact hd
        · exact List.mem_takeWhile_imp hx
      · exact head_dropWhile_false cs
    · exact absurd h (by simp [numInt, hd])

/-- `numInt` re-scans a digit run however the input continues past it. -/
theorem numInt_extend (ds r : List Char) (hne : ds ≠ [])
    (hds : ∀ c ∈ ds, c.isDigit = true)
    (hr : ∀ c, r.head? = some c → c.isDigit = false) :
    numInt (ds ++ r) = some (ds, r) := by
  cases ds with
  | nil => exact absurd rfl hne
  | cons c ds =>
    have hc : c.isDigit = true := hds c (by simp)
    have hds' : ∀ x ∈ ds, x.isDigit = true := fun x hx => hds x (by simp [hx])
    simp only [List.cons_append, numInt, if_pos hc, Option.some.injEq, Prod.mk.injEq]
    exact ⟨by rw [takeWhile_extend ds r hds' hr], by rw [dropWhile_extend ds r hds' hr]⟩

theorem digit_ne_chars {c : Char} (h : c.isDigit = true) :
    c ≠ '-' ∧ c ≠ '+' ∧ c ≠ '.' ∧ c ≠ 'e' ∧ c ≠ 'E' := by
  refine ⟨?_, ?_, ?_, ?_, ?_⟩ <;> (rintro rfl; exact absurd h (by decide))

/-- What a successful `numFrac` tells. -/
theorem numFrac_inv {cs fp r : List Char} (h : numFrac cs = some (fp, r)) :
    (fp = [] ∧ r = cs ∧ ∀ c, cs.head? = some c → c ≠ '.') ∨
    (∃ ds, fp = '.' :: ds ∧ cs = fp ++ r ∧ ds ≠ [] ∧ (∀ c ∈ ds, c.isDigit = true)
      ∧ (∀ c, r.head? = some c → c.isDigit = false)) := by
  cases cs with
  | nil =>
    left
    simp only [numFrac, Option.some.injEq, Prod.mk.injEq] at h
    exact ⟨h.1.symm, h.2.symm, by intro c hc; cases hc⟩
  | cons c cs =>
    by_cases hc : c = '.'
    · subst hc
      right
      simp only [numFrac, if_pos rfl] at h
      cases hni : numInt cs with
      | none => rw [hni] at h; cases h
      | some p =>
        obtain ⟨ds, r0⟩ := p
        rw [hni] at h
        simp only [Option.some.injEq, Prod.mk.injEq] at h
        obtain ⟨rfl, rfl⟩ := h
        obtain ⟨hsplit, hne, hds, hr⟩ := numInt_inv hni
        exact ⟨ds, rfl, by simp [hsplit], hne, hds, hr⟩
    · left
      simp only [numFrac, if_neg hc, Option.some.injEq, Prod.mk.injEq] at h
      refine ⟨h.1.symm, h.2.symm, ?_⟩
      intro x hx
      obtain rfl : c = x := by simpa using hx
      exact hc

/-- What a successful `numExpo` tells. -/
theorem numExpo_inv {cs ep r : List Char} (h : numExpo cs = some (ep, r)) :
    (ep = [] ∧ r = cs ∧ ∀ c, cs.head? = some c → c ≠ 'e' ∧ c ≠ 'E') ∨
    (∃ e0 sg ds, (e0 = 'e' ∨ e0 = 'E') ∧ (sg = [] ∨ sg = ['+'] ∨ sg = ['-'])
      ∧ ds ≠ [] ∧ (∀ c ∈ ds, c.isDigit = true)
      ∧ ep = e0 :: (sg ++ ds) ∧ cs = ep ++ r
      ∧ (∀ c, r.head? = some c → c.isDigit = false)) := by
  cases cs with
  | nil =>
    left
    simp only [numExpo, Option.some.injEq, Prod.mk.injEq] at h
    exact ⟨h.1.symm, h.2.symm, by intro c hc; cases hc⟩
  | cons c cs =>
    by_cases hc : c = 'e' ∨ c = 'E'
    · right
      simp only [numExpo, if_pos hc] at h
      cases cs with
      | nil => cases h
      | cons s r1 =>
        by_cases hs : s = '+' ∨ s = '-'
        · simp only [if_pos hs] at h
          cases hni : numInt r1 with
          | none => rw [hni] at h; cases h
          | some p =>
            obtain ⟨ds, r0⟩ := p
            rw [hni] at h
            simp only [Option.some.injEq, Prod.mk.injEq] at h
            obtain ⟨rfl, rfl⟩ := h
            obtain ⟨hsplit, hne, hds, hr⟩ := numInt_inv hni
            refine ⟨c, [s], ds, hc, ?_, hne, hds, rfl, by simp [hsplit], hr⟩
            rcases hs with rfl | rfl
            · exact Or.inr (Or.inl rfl)
            · exact Or.inr (Or.inr rfl)
        · simp only [if_neg hs] at h
          cases hni : numInt (s :: r1) with
          | none => rw [hni] at h; cases h
          | some p =>
            obtain ⟨ds, r0⟩ := p
            rw [hni] at h
            simp only [Option.some.injEq, Prod.mk.injEq] at h
            obtain ⟨rfl, rfl⟩ := h
            obtain ⟨hsplit, hne, hds, hr⟩ := numInt_inv hni
            exact ⟨c, [], ds, hc, Or.inl rfl, hne, hds, rfl, by simpa using hsplit, hr⟩
    · left
      push_neg at hc
      simp only [numExpo, if_neg (by tauto : ¬(c = 'e' ∨ c = 'E')), Option.some.injEq,
        Prod.mk.injEq] at h
      refine ⟨h.1.symm, h.2.symm, ?_⟩
      intro x hx
      obtain rfl : c = x := by simpa using hx
      exact hc

theorem numFrac_extend_nil (r2 : List Char)
    (hr : ∀ c, r2.head? = some c → c ≠ '.') :
    numFrac r2 = some ([], r2) := by
  cases r2 with
  | nil => rfl
  | cons c r => simp [numFrac, hr c rfl]

theorem numFrac_extend_frac (ds r2 : List Char) (hne : ds ≠ [])
    (hds : ∀ c ∈ ds, c.isDigit = true)
    (hr : ∀ c, r2.head? = some c → c.isDigit = false) :
    numFrac (('.' :: ds) ++ r2) = some ('.' :: ds, r2) := by
  have hni := numInt_extend ds r2 hne hds hr
  simp [numFrac, List.cons_append, hni]

theorem numExpo_extend_nil (r2 : List Char)
    (hr : ∀ c, r2.head? = some c → c ≠ 'e' ∧ c ≠ 'E') :
    numExpo r2 = some ([], r2) := by
  cases r2 with
  | nil => rfl
  | cons c r =>
    have hc := hr c rfl
    simp [numExpo, hc.1, hc.2]

theorem numExpo_extend_exp (e0 : Char) (sg ds r2 : List Char)
    (he : e0 = 'e' ∨ e0 = 'E') (hsg : sg = [] ∨ sg = ['+'] ∨ sg = ['-'])
    (hne : ds ≠ []) (hds : ∀ c ∈ ds, c.isDigit = true)
    (hr : ∀ c, r2.head? = some c → c.isDigit = false) :
    numExpo ((e0 :: (sg ++ ds)) ++ r2) = some (e0 :: (sg ++ ds), r2) := by
  have hni := numInt_extend ds r2 hne hds hr
  obtain ⟨d0, ds', rfl⟩ : ∃ d0 ds', ds = d0 :: ds' := by
    cases ds with
    | nil => exact absurd rfl hne
    | cons d0 ds' => exact ⟨d0, ds', rfl⟩
  have hd0 := hds d0 (by simp)
  have hdm : d0 ≠ '-' := (digit_ne_chars hd0).1
  have hdp : d0 ≠ '+' := (digit_ne_chars hd0).2.1
  have hcond : ¬(d0 = '+' ∨ d0 = '-') := by tauto
  rcases he with rfl | rfl <;> rcases hsg with rfl | rfl | rfl <;>
    simp_all [numExpo, List.cons_append, List.nil_append]

/-- The three scanner components re-scan their own output pieces whatever
stop-compatible input follows. -/
theorem numScan_core_extend (ip fp ep r2 : List Char)
    (hipne : ip ≠ []) (hip : ∀ c ∈ ip, c.isDigit = true)
    (hfp : fp = [] ∨ ∃ ds, fp = '.' :: ds ∧ ds ≠ [] ∧ (∀ c ∈ ds, c.isDigit = true))
    (hep : ep = [] ∨ ∃ e0 sg ds, (e0 = 'e' ∨ e0 = 'E')
        ∧ (sg = [] ∨ sg = ['+'] ∨ sg = ['-'])
        ∧ ds ≠ [] ∧ (∀ c ∈ ds, c.isDigit = true) ∧ ep = e0 :: (sg ++ ds))
    (hb : stopsNum r2 = true) :
    numInt (ip ++ (fp ++ (ep ++ r2))) = some (ip, fp ++ (ep ++ r2))
    ∧ numFrac (fp ++ (ep ++ r2)) = some (fp, ep ++ r2)
    ∧ numExpo (ep ++ r2) = some (ep, r2) := by
  have hdr2 : ∀ c, r2.head? = some c → c.isDigit = false ∧ c ≠ '.' ∧ c ≠ 'e' ∧ c ≠ 'E' := by
    intro c hc
    cases r2 with
    | nil => cases hc
    | cons c0 r =>
      obtain rfl : c0 = c := by simpa using hc
      exact stopsNum_head hb
  have hexphead : ∀ c, (ep ++ r2).head? = some c → c.isDigit = false ∧ c ≠ '.' := by
    intro c hc
    rcases hep with rfl | ⟨e0, sg, ds, he, _, _, _, rfl⟩
    · simp only [List.nil_append] at hc
      exact ⟨(hdr2 c hc).1, (hdr2 c hc).2.1⟩
    · simp only [List.cons_append] at hc
      obtain rfl : e0 = c := by simpa using hc
      rcases he with rfl | rfl <;> exact ⟨by decide, by decide⟩
  have hexp : numExpo (ep ++ r2) = some (ep, r2) := by
    rcases hep with rfl | ⟨e0, sg, ds, he, hsg, hdne, hds, rfl⟩
    · simp only [List.nil_append]
      exact numExpo_extend_nil r2 (fun c hc => ⟨(hdr2 c hc).2.2.1, (hdr2 c hc).2.2.2⟩)
    · exact numExpo_extend_exp e0 sg ds r2 he hsg hdne hds (fun c hc => (hdr2 c hc).1)
  have hfrachead : ∀ c, (fp ++ (ep ++ r2)).head? = some c → c.isDigit = false := by
    intro c hc
    rcases hfp with rfl | ⟨ds, rfl, _, _⟩
    · simp only [List.nil_append] at hc
      exact (hexphead c hc).1
    · simp only [List.cons_append] at hc
      obtain rfl : '.' = c := by simpa using hc
      decide
  have hfrac : numFrac (fp ++ (ep ++ r2)) = some (fp, ep ++ r2) := by
    rcases hfp with rfl | ⟨ds, rfl, hdne, hds⟩
    · simp only [List.nil_append]
      exact numFrac_extend_nil _ (fun c hc => (hexphead c hc).2)
    · exact numFrac_extend_frac ds _ hdne hds (fun c hc => (hexphead c hc).1)
  exact ⟨numInt_extend ip _ hipne hip hfrachead, hfrac, hexp⟩

/-- Anatomy of a successful number scan: sign, integer digits, optional
fraction, optional exponent. -/
theorem numScan_inv {cs tok r : List Char} (h : numScan cs = some (tok, r)) :
    ∃ sgn ip fp ep,
      tok = ((sgn ++ ip ++ fp) ++ ep)
      ∧ (sgn = [] ∨ sgn = ['-'])
      ∧ ip ≠ [] ∧ (∀ c ∈ ip, c.isDigit = true)
      ∧ (fp = [] ∨ ∃ ds, fp = '.' :: ds ∧ ds ≠ [] ∧ (∀ c ∈ ds, c.isDigit = true))
      ∧ (ep = [] ∨ ∃ e0 sg ds, (e0 = 'e' ∨ e0 = 'E')
          ∧ (sg = [] ∨ sg = ['+'] ∨ sg = ['-'])
          ∧ ds ≠ [] ∧ (∀ c ∈ ds, c.isDigit = true) ∧ ep = e0 :: (sg ++ ds)) := by
  have main : ∀ (sgn body : List Char), (sgn = [] ∨ sgn = ['-']) →
      (match numInt body with
       | none => none
       | some (ip, cs2) =>
         match numFrac cs2 with
         | none => none
         | some (fp, cs3) =>
           match numExpo cs3 with
           | none => none
           | some (ep, cs4) => some (((sgn ++ ip ++ fp) ++ ep : List Char), cs4))
        = some (tok, r) →
      ∃ sgn' ip fp ep,
        tok = ((sgn' ++ ip ++ fp) ++ ep)
        ∧ (sgn' = [] ∨ sgn' = ['-'])
        ∧ ip ≠ [] ∧ (∀ c ∈ ip, c.isDigit = true)
        ∧ (fp = [] ∨ ∃ ds, fp = '.' :: ds ∧ ds ≠ [] ∧ (∀ c ∈ ds, c.isDigit = true))
        ∧ (ep = [] ∨ ∃ e0 sg ds, (e0 = 'e' ∨ e0 = 'E')
            ∧ (sg = [] ∨ sg = ['+'] ∨ sg = ['-'])
            ∧ ds ≠ [] ∧ (∀ c ∈ ds, c.isDigit = true) ∧ ep = e0 :: (sg ++ ds)) := by
    intro sgn body hsgn hm
    split at hm
    · cases hm
    · rename_i ip cs2 hni
      split at hm
      · cases hm
      · rename_i fp cs3 hnf
        split at hm
        · cases hm
        · rename_i ep cs4 hnx
          simp only [Option.some.injEq, Prod.mk.injEq] at hm
          obtain ⟨rfl, rfl⟩ := hm
          obtain ⟨_, hipne, hip, _⟩ := numInt_inv hni
          refine ⟨sgn, ip, fp, ep, rfl, hsgn, hipne, hip, ?_, ?_⟩
          · rcases numFrac_inv hnf with ⟨rfl, _, _⟩ | ⟨ds, rfl, _, hdne, hds, _⟩
            · exact Or.inl rfl
            · exact Or.inr ⟨ds, rfl, hdne, hds⟩
          · rcases numExpo_inv hnx with ⟨rfl, _, _⟩ | ⟨e0, sg, ds, he, hg, hdne, hds, rfl, _, _⟩
            · exact Or.inl rfl
            · exact Or.inr ⟨e0, sg, ds, he, hg, hdne, hds, rfl⟩
  cases cs with
  | nil =>
    exact absurd h (by simp [numScan, numInt])
  | cons c cs' =>
    by_cases hc : c = '-'
    · subst hc
      refine main ['-'] cs' (Or.inr rfl) ?_
      simpa [numScan] using h
    · refine main [] (c :: cs') (Or.inl rfl) ?_
      simpa [numScan, hc] using h

/-- The scanned token re-scans in front of any stop-compatible rest. -/
theorem numScan_consumed {cs tok r : List Char} (h : numScan cs = some (tok, r))
    (r2 : List Char) (hb : stopsNum r2 = true) :
    numScan (tok ++ r2) = some (tok, r2) := by
  obtain ⟨sgn, ip, fp, ep, rfl, hsgn, hipne, hip, hfp, hep⟩ := numScan_inv h
  obtain ⟨hni, hnf, hnx⟩ := numScan_core_extend ip fp ep r2 hipne hip hfp hep hb
  obtain ⟨d0, ip', rfl⟩ : ∃ d0 ip', ip = d0 :: ip' := by
    cases ip with
    | nil => exact absurd rfl hipne
    | cons d0 ip' => exact ⟨d0, ip', rfl⟩
  have hd0 : d0.isDigit = true := hip d0 (by simp)
  have hdm : d0 ≠ '-' := (digit_ne_chars hd0).1
  rcases hsgn with rfl | rfl
  · have hsh : ((([] ++ (d0 :: ip') ++ fp) ++ ep) ++ r2 : List Char)
        = d0 :: ((ip' ++ (fp ++ (ep ++ r2)))) := by simp
    rw [hsh]
    have hni' : numInt (d0 :: (ip' ++ (fp ++ (ep ++ r2)))) = some (d0 :: ip', fp ++ (ep ++ r2)) := by
      simpa using hni
    simp [numScan, hdm, hni', hnf, hnx]
  · have hsh : (((['-'] ++ (d0 :: ip') ++ fp) ++ ep) ++ r2 : List Char)
        = '-' :: (d0 :: (ip' ++ (fp ++ (ep ++ r2)))) := by simp
    rw [hsh]
    have hni' : numInt (d0 :: (ip' ++ (fp ++ (ep ++ r2)))) = some (d0 :: ip', fp ++ (ep ++ r2)) := by
      simpa using hni
    simp [numScan, hni', hnf, hnx]

/-! ## Codec round-trip, stage 2: string literals -/

theorem hexNib_hexDigit (n : Nat) (h : n < 16) : hexNib (hexDigit n) = some n := by
  interval_cases n <;> decide

/-- Parsing a `\u00XX` escape yields the encoded character. -/
theorem pStrBody_u_escape (x y : Char) (m n : Nat) (r : List Char)
    (hx : hexNib x = some m) (hy : hexNib y = some n) :
    pStrBody ('\\' :: 'u' :: '0' :: '0' :: x :: y :: r)
      = match pStrBody r with
        | some (scs, r2) => some (Char.ofNat (((0 * 16 + 0) * 16 + m) * 16 + n) :: scs, r2)
        | none => none := by
  have h0 : hexNib '0' = some 0 := by decide
  rw [pStrBody.eq_def]
  simp [h0, hx, hy]

/-- Parsing one escaped character prepends that character. -/
theorem pStrBody_escChar (c : Char) (r : List Char) :
    pStrBody (escChar c ++ r)
      = match pStrBody r with
        | some (scs, r2) => some (c :: scs, r2)
        | none => none := by
  unfold escChar
  by_cases h1 : c = '"'
  · subst h1
    rw [if_pos (rfl : ('"' : Char) = '"'),
      show (['\\', '"'] ++ r) = '\\' :: '"' :: r from rfl, pStrBody.eq_def]
    simp [escDecode]
  · by_cases h2 : c = '\\'
    · subst h2
      rw [if_neg h1, if_pos (rfl : ('\\' : Char) = '\\'),
        show (['\\', '\\'] ++ r) = '\\' :: '\\' :: r from rfl, pStrBody.eq_def]
      simp [escDecode]
    · by_cases h3 : c.toNat < 32
      · simp only [if_neg h1, if_neg h2, if_pos h3]
        have e2 := hexNib_hexDigit (c.toNat / 16) (by omega)
        have e3 := hexNib_hexDigit (c.toNat % 16) (by omega)
        have harith : ((0 * 16 + 0) * 16 + c.toNat / 16) * 16 + c.toNat % 16 = c.toNat := by
          omega
        rw [show (['\\', 'u', '0', '0', hexDigit (c.toNat / 16), hexDigit (c.toNat % 16)] ++ r)
            = '\\' :: 'u' :: '0' :: '0' :: hexDigit (c.toNat / 16)
                :: hexDigit (c.toNat % 16) :: r from rfl]
        rw [pStrBody_u_escape _ _ _ _ r e2 e3, harith, Char.ofNat_toNat]
      · simp only [if_neg h1, if_neg h2, if_neg h3]
        rw [show ([c] ++ r) = c :: r from rfl, pStrBody.eq_def]
        simp [h1, h2]

theorem pStrBody_escSeq (cs r : List Char) :
    pStrBody (escSeq cs ++ '"' :: r) = some (cs, r) := by
  induction cs with
  | nil =>
    rw [show escSeq [] ++ '"' :: r = '"' :: r from rfl, pStrBody.eq_def]
    simp
  | cons c cs ih =>
    rw [show escSeq (c :: cs) = escChar c ++ escSeq cs from rfl, List.append_assoc,
        pStrBody_escChar, ih]

/-! ## Codec round-trip, stage 3: values the parser can produce -/

mutual

/-- A value whose encoding the parser provably re-reads: number tokens
self-scan exactly, and object keys are duplicate-free.  `jsonParse` only
produces such values. -/
def goodVal : Json → Bool
  | .null => true
  | .bool _ => true
  | .num tok => decide (numScan tok.data = some (tok.data, []))
  | .str _ => true
  | .arr xs => goodItems xs
  | .obj fs => decide ((fs.map Prod.fst).Nodup) && goodFields fs

def goodItems : List Json → Bool
  | [] => true
  | x :: xs => goodVal x && goodItems xs

def goodFields : List (String × Json) → Bool
  | [] => true
  | f :: fs => goodVal f.2 && goodFields fs

end

theorem goodItems_iff (xs : List Json) :
    goodItems xs = true ↔ ∀ x ∈ xs, goodVal x = true := by
  induction xs with
  | nil => simp [goodItems]
  | cons x xs ih => simp [goodItems, ih]

theorem goodFields_iff (fs : List (String × Json)) :
    goodFields fs = true ↔ ∀ f ∈ fs, goodVal f.2 = true := by
  induction fs with
  | nil => simp [goodFields]
  | cons f fs ih => simp [goodFields, ih]

theorem digit_not_ws {c : Char} (h : c.isDigit = true) : isWsChar c = false := by
  by_contra hw
  rw [Bool.not_eq_false] at hw
  simp only [isWsChar, decide_eq_true_eq] at hw
  rcases hw with rfl | rfl | rfl | rfl <;> exact absurd h (by decide)

theorem digit_head_clear {c : Char} (h : c.isDigit = true) :
    c ≠ '{' ∧ c ≠ '[' ∧ c ≠ '"' ∧ c ≠ 'n' ∧ c ≠ 't' ∧ c ≠ 'f'
    ∧ c ≠ ']' ∧ c ≠ '}' ∧ c ≠ ',' ∧ isWsChar c = false := by
  refine ⟨?_, ?_, ?_, ?_, ?_, ?_, ?_, ?_, ?_, digit_not_ws h⟩ <;>
    (rintro rfl; exact absurd h (by decide))

theorem dropLit_self (ls : List Char) : ∀ cs, dropLit ls (ls ++ cs) = some cs := by
  induction ls with
  | nil => intro cs; rfl
  | cons l ls ih => intro cs; simp [dropLit, ih]

theorem wsDrop_cons_not {c : Char} (r : List Char) (h : isWsChar c = false) :
    wsDrop (c :: r) = c :: r := by
  simp [wsDrop, List.dropWhile_cons, h]

theorem fieldSet_append_fresh (fs : List (String × Json)) (k : String) (v : Json)
    (h : k ∉ fs.map Prod.fst) : fieldSet fs k v = fs ++ [(k, v)] := by
  induction fs with
  | nil => rfl
  | cons f fs ih =>
    obtain ⟨k0, v0⟩ := f
    simp only [List.map_cons, List.mem_cons] at h
    push_neg at h
    simp [fieldSet, Ne.symm h.1, ih h.2]

/-- Every encoding of a good value starts with a character that is neither
whitespace nor a closing delimiter nor a comma. -/
theorem encodeVal_head (j : Json) (hg : goodVal j = true) :
    ∃ c t, encodeVal j = c :: t ∧ isWsChar c = false ∧ c ≠ ']' ∧ c ≠ '}' ∧ c ≠ ',' := by
  cases j with
  | null => exact ⟨'n', _, rfl, by decide, by decide, by decide, by decide⟩
  | bool b =>
    cases b with
    | true => exact ⟨'t', _, rfl, by decide, by decide, by decide, by decide⟩
    | false => exact ⟨'f', _, rfl, by decide, by decide, by decide, by decide⟩
  | str s => exact ⟨'"', _, rfl, by decide, by decide, by decide, by decide⟩
  | arr xs =>
    cases xs with
    | nil => exact ⟨'[', _, rfl, by decide, by decide, by decide, by decide⟩
    | cons x xs => exact ⟨'[', _, rfl, by decide, by decide, by decide, by decide⟩
  | obj fs =>
    cases fs with
    | nil => exact ⟨'{', _, rfl, by decide, by decide, by decide, by decide⟩
    | cons f fs => exact ⟨'{', _, rfl, by decide, by decide, by decide, by decide⟩
  | num tok =>
    have hs : numScan tok.data = some (tok.data, []) := by
      simpa [goodVal] using hg
    obtain ⟨sgn, ip, fp, ep, htok, hsgn, hipne, hip, _, _⟩ := numScan_inv hs
    obtain ⟨d0, ip', rfl⟩ : ∃ d0 ip', ip = d0 :: ip' := by
      cases ip with
      | nil => exact absurd rfl hipne
      | cons d0 ip' => exact ⟨d0, ip', rfl⟩
    have hd0 : d0.isDigit = true := hip d0 (by simp)
    obtain ⟨_, _, _, _, _, _, hbr, hbc, hcm, hws⟩ := digit_head_clear hd0
    rcases hsgn with rfl | rfl
    · refine ⟨d0, ip' ++ fp ++ ep, ?_, hws, hbr, hbc, hcm⟩
      rw [show encodeVal (.num tok) = tok.data from rfl, htok]
      simp
    · refine ⟨'-', (d0 :: ip' ++ fp) ++ ep, ?_, by decide, by decide, by decide, by decide⟩
      rw [show encodeVal (.num tok) = tok.data from rfl, htok]
      simp

/-! ## Codec round-trip, stage 4: the main induction -/

mutual

/-- Parsing an encoded good value in front of any stop-compatible rest
recovers the value exactly. -/
theorem rtVal : ∀ (j : Json) (fuel : Nat) (rest : List Char),
    goodVal j = true → (encodeVal j).length < fuel → stopsNum rest = true →
    pVal fuel (encodeVal j ++ rest) = some (j, rest)
  | .null, fuel, rest, hg, hf, hb => by
    cases fuel with
    | zero => exact absurd hf (by simp)
    | succ n =>
      rw [show encodeVal .null ++ rest = 'n' :: 'u' :: 'l' :: 'l' :: rest from rfl]
      have hw := wsDrop_cons_not ('u' :: 'l' :: 'l' :: rest)
        (by decide : isWsChar 'n' = false)
      have hd := dropLit_self ['u', 'l', 'l'] rest
      simp only [List.cons_append, List.nil_append] at hd
      simp [pVal, hw, hd]
  | .bool true, fuel, rest, hg, hf, hb => by
    cases fuel with
    | zero => exact absurd hf (by simp)
    | succ n =>
      rw [show encodeVal (.bool true) ++ rest = 't' :: 'r' :: 'u' :: 'e' :: rest from rfl]
      have hw := wsDrop_cons_not ('r' :: 'u' :: 'e' :: rest)
        (by decide : isWsChar 't' = false)
      have hd := dropLit_self ['r', 'u', 'e'] rest
      simp only [List.cons_append, List.nil_append] at hd
      simp [pVal, hw, hd]
  | .bool false, fuel, rest, hg, hf, hb => by
    cases fuel with
    | zero => exact absurd hf (by simp)
    | succ n =>
      rw [show encodeVal (.bool false) ++ rest = 'f' :: 'a' :: 'l' :: 's' :: 'e' :: rest from rfl]
      have hw := wsDrop_cons_not ('a' :: 'l' :: 's' :: 'e' :: rest)
        (by decide : isWsChar 'f' = false)
      have hd := dropLit_self ['a', 'l', 's', 'e'] rest
      simp only [List.cons_append, List.nil_append] at hd
      simp [pVal, hw, hd]
  | .str s, fuel, rest, hg, hf, hb => by
    cases fuel with
    | zero => exact absurd hf (by simp)
    | succ n =>
      rw [show encodeVal (.str s) ++ rest = '"' :: (escSeq s.data ++ ('"' :: rest)) from by
        simp [encodeVal, encodeStrLit]]
      have hw := wsDrop_cons_not (escSeq s.data ++ ('"' :: rest))
        (by decide : isWsChar '"' = false)
      have hp := pStrBody_escSeq s.data rest
      simp [pVal, hw, hp]
  | .num tok, fuel, rest, hg, hf, hb => by
    cases fuel with
    | zero => exact absurd hf (by simp)
    | succ n =>
      have hs : numScan tok.data = some (tok.data, []) := by simpa [goodVal] using hg
      have hcons := numScan_consumed hs rest hb
      obtain ⟨sgn, ip, fp, ep, htok, hsgn, hipne, hip, _, _⟩ := numScan_inv hs
      obtain ⟨d0, ip', rfl⟩ : ∃ d0 ip', ip = d0 :: ip' := by
        cases ip with
        | nil => exact absurd rfl hipne
        | cons d0 ip' => exact ⟨d0, ip', rfl⟩
      have hd0 : d0.isDigit = true := hip d0 (by simp)
      obtain ⟨h1, h2, h3, h4, h5, h6, _, _, _, hws⟩ := digit_head_clear hd0
      rw [show encodeVal (.num tok) = tok.data from rfl]
      rcases hsgn with rfl | rfl
      · have hshape : tok.data ++ rest = d0 :: (ip' ++ (fp ++ (ep ++ rest))) := by
          rw [htok]; simp
        rw [hshape]
        have hcons' : numScan (d0 :: (ip' ++ (fp ++ (ep ++ rest))))
            = some (tok.data, rest) := by
          rw [← hshape]; exact hcons
        have hw := wsDrop_cons_not (ip' ++ (fp ++ (ep ++ rest))) hws
        simp only [pVal]
        rw [hw]
        simp only [h1, h2, h3, h4, h5, h6, if_neg, ite_false, if_false]
        rw [hcons']
      · have hshape : tok.data ++ rest = '-' :: (d0 :: (ip' ++ (fp ++ (ep ++ rest)))) := by
          rw [htok]; simp
        rw [hshape]
        have hcons' : numScan ('-' :: (d0 :: (ip' ++ (fp ++ (ep ++ rest)))))
            = some (tok.data, rest) := by
          rw [← hshape]; exact hcons
        have hw := wsDrop_cons_not (d0 :: (ip' ++ (fp ++ (ep ++ rest))))
          (by decide : isWsChar '-' = false)
        simp only [pVal]
        rw [hw]
        simp only [if_neg (by decide : ¬('-' : Char) = '{'),
          if_neg (by decide : ¬('-' : Char) = '['), if_neg (by decide : ¬('-' : Char) = '"'),
          if_neg (by decide : ¬('-' : Char) = 'n'), if_neg (by decide : ¬('-' : Char) = 't'),
          if_neg (by decide : ¬('-' : Char) = 'f')]
        rw [hcons']
  | .arr [], fuel, rest, hg, hf, hb => by
    cases fuel with
    | zero => exact absurd hf (by simp)
    | succ n =>
      rw [show encodeVal (.arr []) ++ rest = '[' :: (']' :: rest) from rfl]
      have hw1 := wsDrop_cons_not (']' :: rest) (by decide : isWsChar '[' = false)
      have hw2 := wsDrop_cons_not rest (by decide : isWsChar ']' = false)
      simp [pVal, hw1, hw2]
  | .arr (x :: xs), fuel, rest, hg, hf, hb => by
    cases fuel with
    | zero => exact absurd hf (by simp)
    | succ n =>
      have hgi : goodItems (x :: xs) = true := by simpa [goodVal] using hg
      have hgx : goodVal x = true ∧ goodItems xs = true := by
        simpa [goodItems, Bool.and_eq_true] using hgi
      have hlen : (encodeVal x ++ encodeItemsTail xs).length + 1 < n := by
        have hL := hf
        rw [show encodeVal (.arr (x :: xs))
            = '[' :: ((encodeVal x ++ encodeItemsTail xs) ++ [']']) from rfl] at hL
        simp only [List.length_cons, List.length_append] at hL ⊢
        omega
      have hitems := rtItems x xs n rest hgi hlen
      obtain ⟨c2, t2, hhead, hws2, hbr2, _, _⟩ := encodeVal_head x hgx.1
      have hshape : encodeVal (.arr (x :: xs)) ++ rest
          = '[' :: (encodeVal x ++ (encodeItemsTail xs ++ (']' :: rest))) := by
        rw [show encodeVal (.arr (x :: xs))
            = '[' :: ((encodeVal x ++ encodeItemsTail xs) ++ [']']) from rfl]
        simp
      rw [hshape]
      have hw1 := wsDrop_cons_not (encodeVal x ++ (encodeItemsTail xs ++ (']' :: rest)))
        (by decide : isWsChar '[' = false)
      have hinner : encodeVal x ++ (encodeItemsTail xs ++ (']' :: rest))
          = c2 :: (t2 ++ (encodeItemsTail xs ++ (']' :: rest))) := by
        rw [hhead]; rfl
      have hw2 : wsDrop (encodeVal x ++ (encodeItemsTail xs ++ (']' :: rest)))
          = c2 :: (t2 ++ (encodeItemsTail xs ++ (']' :: rest))) := by
        rw [hinner]; exact wsDrop_cons_not _ hws2
      have hit' : pItems n (c2 :: (t2 ++ (encodeItemsTail xs ++ (']' :: rest))))
          = some (x :: xs, rest) := by
        rw [← hinner, show encodeVal x ++ (encodeItemsTail xs ++ (']' :: rest))
            = (encodeVal x ++ encodeItemsTail xs) ++ (']' :: rest) from by simp]
        exact hitems
      simp only [pVal]
      rw [hw1]
      simp only [if_neg (by decide : ¬('[' : Char) = '{'),
        if_pos (rfl : ('[' : Char) = '[')]
      rw [hw2]
      simp only [hbr2, if_neg, ite_false, if_false]
      rw [hit']
      simp
  | .obj [], fuel, rest, hg, hf, hb => by
    cases fuel with
    | zero => exact absurd hf (by simp)
    | succ n =>
      rw [show encodeVal (.obj []) ++ rest = '{' :: ('}' :: rest) from rfl]
      have hw1 := wsDrop_cons_not ('}' :: rest) (by decide : isWsChar '{' = false)
      have hw2 := wsDrop_cons_not rest (by decide : isWsChar '}' = false)
      simp [pVal, hw1, hw2]
  | .obj (f :: fs), fuel, rest, hg, hf, hb => by
    cases fuel with
    | zero => exact absurd hf (by simp)
    | succ n =>
      have hgo : ((f :: fs).map Prod.fst).Nodup ∧ goodFields (f :: fs) = true := by
        have h := hg
        simp only [goodVal, Bool.and_eq_true, decide_eq_true_eq] at h
        exact h
      have hlen : (encodeFieldKV f ++ encodeFieldsTail fs).length + 1 < n := by
        have hL := hf
        rw [show encodeVal (.obj (f :: fs))
            = '{' :: ((encodeFieldKV f ++ encodeFieldsTail fs) ++ ['}']) from rfl] at hL
        simp only [List.length_cons, List.length_append] at hL ⊢
        omega
      have hfields := rtFields f fs [] n rest hgo.2 (by simpa using hgo.1) hlen
      obtain ⟨k, v⟩ := f
      have hshape : encodeVal (.obj ((k, v) :: fs)) ++ rest
          = '{' :: (encodeFieldKV (k, v) ++ (encodeFieldsTail fs ++ ('}' :: rest))) := by
        rw [show encodeVal (.obj ((k, v) :: fs))
            = '{' :: ((encodeFieldKV (k, v) ++ encodeFieldsTail fs) ++ ['}']) from rfl]
        simp
      rw [hshape]
      have hw1 := wsDrop_cons_not (encodeFieldKV (k, v) ++ (encodeFieldsTail fs ++ ('}' :: rest)))
        (by decide : isWsChar '{' = false)
      have hinner : encodeFieldKV (k, v) ++ (encodeFieldsTail fs ++ ('}' :: rest))
          = '"' :: ((escSeq k.data ++ ['"']) ++ ((':' :: encodeVal v)
              ++ (encodeFieldsTail fs ++ ('}' :: rest)))) := by
        rw [show encodeFieldKV (k, v)
            = ('"' :: (escSeq k.data ++ ['"'])) ++ (':' :: encodeVal v) from rfl]
        simp
      have hw2 : wsDrop (encodeFieldKV (k, v) ++ (encodeFieldsTail fs ++ ('}' :: rest)))
          = '"' :: ((escSeq k.data ++ ['"']) ++ ((':' :: encodeVal v)
              ++ (encodeFieldsTail fs ++ ('}' :: rest)))) := by
        rw [hinner]; exact wsDrop_cons_not _ (by decide)
      have hfld' : pFields n [] ('"' :: ((escSeq k.data ++ ['"']) ++ ((':' :: encodeVal v)
            ++ (encodeFieldsTail fs ++ ('}' :: rest)))))
          = some ((k, v) :: fs, rest) := by
        rw [← hinner, show encodeFieldKV (k, v) ++ (encodeFieldsTail fs ++ ('}' :: rest))
            = (encodeFieldKV (k, v) ++ encodeFieldsTail fs) ++ ('}' :: rest) from by simp]
        simpa using hfields
      simp only [pVal]
      rw [hw1]
      simp only [if_pos (rfl : ('{' : Char) = '{')]
      rw [hw2]
      simp only [if_neg (by decide : ¬('"' : Char) = '}')]
      rw [hfld']
      simp

termination_by j _ _ _ _ _ => sizeOf j

/-- Parsing encoded items through the closing bracket recovers them. -/
theorem rtItems : ∀ (x : Json) (xs : List Json) (fuel : Nat) (rest : List Char),
    goodItems (x :: xs) = true →
    (encodeVal x ++ encodeItemsTail xs).length + 1 < fuel →
    pItems fuel ((encodeVal x ++ encodeItemsTail xs) ++ (']' :: rest)) = some (x :: xs, rest)
  | x, [], fuel, rest, hg, hf => by
    cases fuel with
    | zero => exact absurd hf (by omega)
    | succ n =>
      have hgx : goodVal x = true := by
        simpa [goodItems, Bool.and_eq_true] using hg
      have hlen : (encodeVal x).length < n := by
        have hL : (encodeVal x ++ encodeItemsTail []).length = (encodeVal x).length := by
          rw [show encodeItemsTail ([] : List Json) = [] from rfl]
          simp
        omega
      have hv := rtVal x n (']' :: rest) hgx hlen (by simp [stopsNum])
      rw [show (encodeVal x ++ encodeItemsTail []) ++ (']' :: rest)
          = encodeVal x ++ (']' :: rest) from by
        rw [show encodeItemsTail ([] : List Json) = [] from rfl]; simp]
      have hw := wsDrop_cons_not rest (by decide : isWsChar ']' = false)
      simp only [pItems]
      rw [hv]
      simp [hw]
  | x, y :: ys, fuel, rest, hg, hf => by
    cases fuel with
    | zero => exact absurd hf (by omega)
    | succ n =>
      have hgx : goodVal x = true ∧ goodItems (y :: ys) = true := by
        simpa [goodItems, Bool.and_eq_true] using hg
      have htail : encodeItemsTail (y :: ys) = ',' :: (encodeVal y ++ encodeItemsTail ys) := rfl
      have hLL : (encodeVal x ++ encodeItemsTail (y :: ys)).length
          = (encodeVal x).length + ((encodeVal y ++ encodeItemsTail ys).length + 1) := by
        rw [htail]
        simp only [List.length_append, List.length_cons]
      have hlen1 : (encodeVal x).length < n := by omega
      have hlen2 : (encodeVal y ++ encodeItemsTail ys).length + 1 < n := by omega
      have hshape : (encodeVal x ++ encodeItemsTail (y :: ys)) ++ (']' :: rest)
          = encodeVal x ++ (',' :: (encodeVal y ++ (encodeItemsTail ys ++ (']' :: rest)))) := by
        rw [htail]; simp
      rw [hshape]
      have hv := rtVal x n (',' :: (encodeVal y ++ (encodeItemsTail ys ++ (']' :: rest))))
        hgx.1 hlen1 (by simp [stopsNum])
      have hrec := rtItems y ys n rest hgx.2 hlen2
      have hrec2 : pItems n (encodeVal y ++ (encodeItemsTail ys ++ (']' :: rest)))
          = some (y :: ys, rest) := by
        rw [show encodeVal y ++ (encodeItemsTail ys ++ (']' :: rest))
            = (encodeVal y ++ encodeItemsTail ys) ++ (']' :: rest) from by simp]
        exact hrec
      have hw := wsDrop_cons_not (encodeVal y ++ (encodeItemsTail ys ++ (']' :: rest)))
        (by decide : isWsChar ',' = false)
      simp only [pItems]
      rw [hv]
      simp [hw, hrec2]
termination_by x xs _ _ _ _ => sizeOf x + sizeOf xs

/-- Parsing encoded members through the closing brace extends the
accumulator with exactly those members. -/
theorem rtFields : ∀ (f : String × Json) (fs : List (String × Json))
      (acc : List (String × Json)) (fuel : Nat) (rest : List Char),
    goodFields (f :: fs) = true →
    ((acc ++ f :: fs).map Prod.fst).Nodup →
    (encodeFieldKV f ++ encodeFieldsTail fs).length + 1 < fuel →
    pFields fuel acc ((encodeFieldKV f ++ encodeFieldsTail fs) ++ ('}' :: rest))
      = some (acc ++ f :: fs, rest)
  | (k, v), [], acc, fuel, rest, hg, hnd, hf => by
    cases fuel with
    | zero => exact absurd hf (by omega)
    | succ n =>
      have hgv : goodVal v = true := by
        simpa [goodFields, Bool.and_eq_true] using hg
      have hlen : (encodeVal v).length < n := by
        have hL := hf
        rw [show encodeFieldKV (k, v)
            = ('"' :: (escSeq k.data ++ ['"'])) ++ (':' :: encodeVal v) from rfl,
          show encodeFieldsTail ([] : List (String × Json)) = [] from rfl] at hL
        simp only [List.length_append, List.length_cons, List.length_nil,
          List.append_nil] at hL
        omega
      have hfresh : k ∉ acc.map Prod.fst := by
        rw [List.map_append] at hnd
        have hdj := (List.nodup_append.mp hnd).2.2
        intro hk
        exact hdj hk (by simp)
      have hshape : (encodeFieldKV (k, v) ++ encodeFieldsTail []) ++ ('}' :: rest)
          = '"' :: (escSeq k.data ++ ('"' :: (':' :: (encodeVal v ++ ('}' :: rest))))) := by
        rw [show encodeFieldKV (k, v)
            = ('"' :: (escSeq k.data ++ ['"'])) ++ (':' :: encodeVal v) from rfl,
          show encodeFieldsTail ([] : List (String × Json)) = [] from rfl]
        simp
      rw [hshape]
      have hp := pStrBody_escSeq k.data (':' :: (encodeVal v ++ ('}' :: rest)))
      have hv := rtVal v n ('}' :: rest) hgv hlen (by simp [stopsNum])
      have hw1 := wsDrop_cons_not
        (escSeq k.data ++ ('"' :: (':' :: (encodeVal v ++ ('}' :: rest)))))
        (by decide : isWsChar '"' = false)
      have hw2 := wsDrop_cons_not (encodeVal v ++ ('}' :: rest))
        (by decide : isWsChar ':' = false)
      have hw3 := wsDrop_cons_not rest (by decide : isWsChar '}' = false)
      have hset : fieldSet acc (⟨k.data⟩ : String) v = acc ++ [(k, v)] :=
        fieldSet_append_fresh acc k v hfresh
      simp only [pFields]
      rw [hw1]
      simp only [if_pos (rfl : ('"' : Char) = '"')]
      rw [hp]
      simp [hw2, hv, hset, hw3]
  | (k, v), f2 :: fs2, acc, fuel, rest, hg, hnd, hf => by
    cases fuel with
    | zero => exact absurd hf (by omega)
    | succ n =>
      have hgv : goodVal v = true ∧ goodFields (f2 :: fs2) = true := by
        simpa [goodFields, Bool.and_eq_true] using hg
      have htail : encodeFieldsTail (f2 :: fs2)
          = ',' :: (encodeFieldKV f2 ++ encodeFieldsTail fs2) := rfl
      have hLL : (encodeFieldKV (k, v) ++ encodeFieldsTail (f2 :: fs2)).length
          = (escSeq k.data).length + (encodeVal v).length
            + (encodeFieldKV f2 ++ encodeFieldsTail fs2).length + 4 := by
        rw [show encodeFieldKV (k, v)
            = ('"' :: (escSeq k.data ++ ['"'])) ++ (':' :: encodeVal v) from rfl, htail]
        simp only [List.length_append, List.length_cons, List.length_nil]
        omega
      have hlen1 : (encodeVal v).length < n := by omega
      have hlen2 : (encodeFieldKV f2 ++ encodeFieldsTail fs2).length + 1 < n := by omega
      have hfresh : k ∉ acc.map Prod.fst := by
        rw [List.map_append] at hnd
        have hdj := (List.nodup_append.mp hnd).2.2
        intro hk
        exact hdj hk (by simp)
      have hnd2 : (((acc ++ [(k, v)]) ++ f2 :: fs2).map Prod.fst).Nodup := by
        rw [show (acc ++ [(k, v)]) ++ f2 :: fs2 = acc ++ (k, v) :: f2 :: fs2 from by simp]
        exact hnd
      have hshape : (encodeFieldKV (k, v) ++ encodeFieldsTail (f2 :: fs2)) ++ ('}' :: rest)
          = '"' :: (escSeq k.data ++ ('"' :: (':' :: (encodeVal v
              ++ (',' :: (encodeFieldKV f2 ++ (encodeFieldsTail fs2 ++ ('}' :: rest)))))))) := by
        rw [show encodeFieldKV (k, v)
            = ('"' :: (escSeq k.data ++ ['"'])) ++ (':' :: encodeVal v) from rfl, htail]
        simp
      rw [hshape]
      have hp := pStrBody_escSeq k.data
        (':' :: (encodeVal v ++ (',' :: (encodeFieldKV f2
          ++ (encodeFieldsTail fs2 ++ ('}' :: rest))))))
      have hv := rtVal v n
        (',' :: (encodeFieldKV f2 ++ (encodeFieldsTail fs2 ++ ('}' :: rest))))
        hgv.1 hlen1 (by simp [stopsNum])
      have hrec := rtFields f2 fs2 (acc ++ [(k, v)]) n rest hgv.2 hnd2 hlen2
      have hw1 := wsDrop_cons_not (escSeq k.data ++ ('"' :: (':' :: (encodeVal v
          ++ (',' :: (encodeFieldKV f2 ++ (encodeFieldsTail fs2 ++ ('}' :: rest))))))))
        (by decide : isWsChar '"' = false)
      have hw2 := wsDrop_cons_not (encodeVal v
          ++ (',' :: (encodeFieldKV f2 ++ (encodeFieldsTail fs2 ++ ('}' :: rest)))))
        (by decide : isWsChar ':' = false)
      have hw3 := wsDrop_cons_not (encodeFieldKV f2 ++ (encodeFieldsTail fs2 ++ ('}' :: rest)))
        (by decide : isWsChar ',' = false)
      have hset : fieldSet acc (⟨k.data⟩ : String) v = acc ++ [(k, v)] :=
        fieldSet_append_fresh acc k v hfresh
      have hrec' : pFields n (acc ++ [(k, v)])
            (encodeFieldKV f2 ++ (encodeFieldsTail fs2 ++ ('}' :: rest)))
          = some (acc ++ (k, v) :: f2 :: fs2, rest) := by
        rw [show encodeFieldKV f2 ++ (encodeFieldsTail fs2 ++ ('}' :: rest))
            = (encodeFieldKV f2 ++ encodeFieldsTail fs2) ++ ('}' :: rest) from by simp]
        rw [hrec]
        simp
      simp only [pFields]
      rw [hw1]
      simp only [if_pos (rfl : ('"' : Char) = '"')]
      rw [hp]
      simp [hw2, hv, hset, hw3, hrec']
termination_by f fs _ _ _ _ _ _ => sizeOf f + sizeOf fs

end

/-! ## Codec round-trip, stage 5: top-level statements and goodness -/

/-- `JSON.parse` inverts `JSON.stringify` on well-formed values. -/
theorem jsonParse_encode (j : Json) (hg : goodVal j = true) :
    jsonParse (jsonEncode j) = some j := by
  have h := rtVal j ((encodeVal j).length + 1) [] hg (by omega) (by simp [stopsNum])
  rw [List.append_nil] at h
  have hdata : (jsonEncode j).data = encodeVal j := rfl
  rw [jsonParse, hdata, h]
  simp [wsDrop]

/-- A successfully scanned number token scans itself with nothing left. -/
theorem numScan_self {cs tok r : List Char} (h : numScan cs = some (tok, r)) :
    numScan tok = some (tok, []) := by
  have := numScan_consumed h [] (by simp [stopsNum])
  rwa [List.append_nil] at this

theorem mem_fieldSet_keys {acc : List (String × Json)} {k x : String} {v : Json}
    (h : x ∈ (fieldSet acc k v).map Prod.fst) : x ∈ acc.map Prod.fst ∨ x = k := by
  induction acc with
  | nil =>
    right
    simpa [fieldSet] using h
  | cons f fs ih =>
    obtain ⟨k', v'⟩ := f
    by_cases hk : k' = k
    · subst hk
      rw [show fieldSet ((k', v') :: fs) k' v = (k', v) :: fs from by
        simp [fieldSet], List.map_cons, List.mem_cons] at h
      rcases h with h | h
      · exact Or.inr h
      · exact Or.inl (by simp [h])
    · rw [show fieldSet ((k', v') :: fs) k v = (k', v') :: fieldSet fs k v from by
        simp [fieldSet, hk], List.map_cons, List.mem_cons] at h
      rcases h with h | h
      · exact Or.inl (by simp [h])
      · rcases ih h with h | h
        · exact Or.inl (by simp [h])
        · exact Or.inr h

/-- JavaScript assignment keeps object keys duplicate-free. -/
theorem fieldSet_keys_nodup {acc : List (String × Json)} {k : String} {v : Json}
    (h : (acc.map Prod.fst).Nodup) : ((fieldSet acc k v).map Prod.fst).Nodup := by
  induction acc with
  | nil => simp [fieldSet]
  | cons f fs ih =>
    obtain ⟨k', v'⟩ := f
    simp only [List.map_cons, List.nodup_cons] at h
    by_cases hk : k' = k
    · subst hk
      simpa [fieldSet] using h
    · simp only [fieldSet, if_neg hk, List.map_cons, List.nodup_cons]
      refine ⟨?_, ih h.2⟩
      intro hmem
      rcases mem_fieldSet_keys hmem with hm | rfl
      · exact h.1 hm
      · exact hk rfl

/-- JavaScript assignment of a well-formed value keeps all values well-formed. -/
theorem fieldSet_goodFields {acc : List (String × Json)} {k : String} {v : Json}
    (ha : goodFields acc = true) (hv : goodVal v = true) :
    goodFields (fieldSet acc k v) = true := by
  induction acc with
  | nil => simp [fieldSet, goodFields, hv]
  | cons f fs ih =>
    obtain ⟨k', v'⟩ := f
    simp only [goodFields, Bool.and_eq_true] at ha
    by_cases hk : k' = k
    · subst hk
      simp [fieldSet, goodFields, hv, ha.2]
    · simp only [fieldSet, if_neg hk, goodFields, Bool.and_eq_true]
      exact ⟨ha.1, ih ha.2⟩

/-- A property read out of a well-formed object yields a well-formed value. -/
theorem fieldGet_good {fs : List (String × Json)} {k : String} {v : Json}
    (hg : goodFields fs = true) (h : fieldGet fs k = some v) : goodVal v = true := by
  induction fs with
  | nil => exact absurd h (by simp [fieldGet])
  | cons f fs ih =>
    obtain ⟨k', v'⟩ := f
    simp only [goodFields, Bool.and_eq_true] at hg
    by_cases hk : k' = k
    · rw [fieldGet, if_pos hk] at h
      obtain rfl : v' = v := by injection h
      exact hg.1
    · rw [fieldGet, if_neg hk] at h
      exact ih hg.2 h

/-! ## Codec round-trip, stage 6: everything the parser returns is good -/

mutual

/-- Every value `pVal` returns is well-formed. -/
theorem pVal_good : ∀ (fuel : Nat) (cs : List Char) (j : Json) (r : List Char),
    pVal fuel cs = some (j, r) → goodVal j = true
  | 0, _, _, _, h => absurd h (by simp [pVal])
  | n + 1, cs, j, r, h => by
    simp only [pVal] at h
    split at h
    · exact absurd h (by simp)
    · rename_i c r0 hw
      split at h
      · split at h
        · exact absurd h (by simp)
        · rename_i c2 r2 hw2
          split at h
          · simp only [Option.some.injEq, Prod.mk.injEq] at h
            obtain ⟨rfl, rfl⟩ := h
            simp [goodVal, goodFields]
          · split at h
            · rename_i fs r3 hfs
              simp only [Option.some.injEq, Prod.mk.injEq] at h
              obtain ⟨rfl, rfl⟩ := h
              have hg := pFields_good n [] (c2 :: r2) fs r3 hfs (by simp)
                (by simp [goodFields])
              simp only [goodVal, Bool.and_eq_true, decide_eq_true_eq]
              exact hg
            · exact absurd h (by simp)
      · split at h
        · split at h
          · exact absurd h (by simp)
          · rename_i c2 r2 hw2
            split at h
            · simp only [Option.some.injEq, Prod.mk.injEq] at h
              obtain ⟨rfl, rfl⟩ := h
              simp [goodVal, goodItems]
            · split at h
              · rename_i xs r3 hxs
                simp only [Option.some.injEq, Prod.mk.injEq] at h
                obtain ⟨rfl, rfl⟩ := h
                simp only [goodVal]
                exact pItems_good n (c2 :: r2) xs r3 hxs
              · exact absurd h (by simp)
        · split at h
          · split at h
            · rename_i scs r2 hstr
              simp only [Option.some.injEq, Prod.mk.injEq] at h
              obtain ⟨rfl, rfl⟩ := h
              simp [goodVal]
            · exact absurd h (by simp)
          · split at h
            · split at h
              · simp only [Option.some.injEq, Prod.mk.injEq] at h
                obtain ⟨rfl, rfl⟩ := h
                simp [goodVal]
              · exact absurd h (by simp)
            · split at h
              · split at h
                · simp only [Option.some.injEq, Prod.mk.injEq] at h
                  obtain ⟨rfl, rfl⟩ := h
                  simp [goodVal]
                · exact absurd h (by simp)
              · split at h
                · split at h
                  · simp only [Option.some.injEq, Prod.mk.injEq] at h
                    obtain ⟨rfl, rfl⟩ := h
                    simp [goodVal]
                  · exact absurd h (by simp)
                · split at h
                  · rename_i tok r2 hscan
                    simp only [Option.some.injEq, Prod.mk.injEq] at h
                    obtain ⟨rfl, rfl⟩ := h
                    simp only [goodVal, decide_eq_true_eq]
                    exact numScan_self hscan
                  · exact absurd h (by simp)

/-- Every item list `pItems` returns is well-formed. -/
theorem pItems_good : ∀ (fuel : Nat) (cs : List Char) (xs : List Json) (r : List Char),
    pItems fuel cs = some (xs, r) → goodItems xs = true
  | 0, _, _, _, h => absurd h (by simp [pItems])
  | n + 1, cs, xs, r, h => by
    simp only [pItems] at h
    split at h
    · exact absurd h (by simp)
    · rename_i v r0 hv
      split at h
      · exact absurd h (by simp)
      · rename_i c r2 hw
        split at h
        · split at h
          · rename_i vs r3 hvs
            simp only [Option.some.injEq, Prod.mk.injEq] at h
            obtain ⟨rfl, rfl⟩ := h
            simp only [goodItems, Bool.and_eq_true]
            exact ⟨pVal_good n cs v r0 hv, pItems_good n r2 vs r3 hvs⟩
          · exact absurd h (by simp)
        · split at h
          · simp only [Option.some.injEq, Prod.mk.injEq] at h
            obtain ⟨rfl, rfl⟩ := h
            simp only [goodItems, Bool.and_eq_true]
            exact ⟨pVal_good n cs v r0 hv, by simp [goodItems]⟩
          · exact absurd h (by simp)

/-- `pFields` preserves key uniqueness and value well-formedness. -/
theorem pFields_good : ∀ (fuel : Nat) (acc : List (String × Json)) (cs : List Char)
      (fs : List (String × Json)) (r : List Char),
    pFields fuel acc cs = some (fs, r) →
    (acc.map Prod.fst).Nodup → goodFields acc = true →
    (fs.map Prod.fst).Nodup ∧ goodFields fs = true
  | 0, _, _, _, _, h, _, _ => absurd h (by simp [pFields])
  | n + 1, acc, cs, fs, r, h, hnd, hgf => by
    simp only [pFields] at h
    split at h
    · exact absurd h (by simp)
    · rename_i c r0 hw
      split at h
      · split at h
        · exact absurd h (by simp)
        · rename_i kcs r1 hstr
          split at h
          · exact absurd h (by simp)
          · rename_i c2 r2 hw2
            split at h
            · split at h
              · exact absurd h (by simp)
              · rename_i v r3 hv
                split at h
                · exact absurd h (by simp)
                · rename_i c3 r4 hw3
                  split at h
                  · have hvg := pVal_good n r2 v r3 hv
                    exact pFields_good n (fieldSet acc ⟨kcs⟩ v) r4 fs r h
                      (fieldSet_keys_nodup hnd) (fieldSet_goodFields hgf hvg)
                  · split at h
                    · simp only [Option.some.injEq, Prod.mk.injEq] at h
                      obtain ⟨rfl, rfl⟩ := h
                      have hvg := pVal_good n r2 v r3 hv
                      exact ⟨fieldSet_keys_nodup hnd, fieldSet_goodFields hgf hvg⟩
                    · exact absurd h (by simp)
            · exact absurd h (by simp)
      · exact absurd h (by simp)

end

/-- Everything `JSON.parse` returns is well-formed: unique keys at every
object and self-delimiting number tokens. -/
theorem jsonParse_good {s : String} {j : Json} (h : jsonParse s = some j) :
    goodVal j = true := by
  rw [jsonParse] at h
  split at h
  · rename_i j0 r0 hp
    split at h
    · obtain rfl : j0 = j := by injection h
      exact pVal_good _ _ _ _ hp
    · exact absurd h (by simp)
  · exact absurd h (by simp)

/-! ## `applyTransforms`: shape of every successful result -/

/-- Case analysis of every `.ok` outcome of `applyTransforms`: either the body
passes through unchanged, or the transform is enabled, the body parses to an
object with a truthy first email, and the result re-serializes that object —
unchanged for an array first email, with the configured `type` planted for an
object first email whose `type` was absent or falsy. -/
theorem applyTransforms_ok_shape (x y : String) (cfg : Config)
    (h : applyTransforms x cfg = .ok y) :
    y = x ∨
    ∃ t pfs first rest,
      cfg.transforms.inject_email_type = some t ∧ ¬ t = "" ∧
      jsonParse x = some (.obj pfs) ∧
      fieldGet pfs "emails" = some (.arr (first :: rest)) ∧
      jsTruthy first = true ∧
      ((∃ l, first = .arr l ∧ y = jsonEncode (.obj pfs)) ∨
       (∃ ffs, first = .obj ffs ∧
         (∀ tv, fieldGet ffs "type" = some tv → jsTruthy tv = false) ∧
         y = jsonEncode (.obj (fieldSet pfs "emails"
           (.arr (.obj (fieldSet ffs "type" (.str t)) :: rest)))))) := by
  cases hinj : cfg.transforms.inject_email_type with
  | none =>
    simp only [applyTransforms, hinj, Except.ok.injEq] at h
    exact Or.inl h.symm
  | some t =>
    by_cases ht : t = ""
    · simp only [applyTransforms, hinj, if_pos ht, Except.ok.injEq] at h
      exact Or.inl h.symm
    · cases hp : jsonParse x with
      | none =>
        simp only [applyTransforms, hinj, if_neg ht, hp, Except.ok.injEq] at h
        exact Or.inl h.symm
      | some parsed =>
        cases parsed with
        | null =>
          simp only [applyTransforms, hinj, if_neg ht, hp] at h
          exact absurd h (by simp)
        | bool b =>
          simp only [applyTransforms, hinj, if_neg ht, hp, Except.ok.injEq] at h
          exact Or.inl h.symm
        | num tok =>
          simp only [applyTransforms, hinj, if_neg ht, hp, Except.ok.injEq] at h
          exact Or.inl h.symm
        | str s =>
          simp only [applyTransforms, hinj, if_neg ht, hp, Except.ok.injEq] at h
          exact Or.inl h.symm
        | arr xs =>
          simp only [applyTransforms, hinj, if_neg ht, hp, Except.ok.injEq] at h
          exact Or.inl h.symm
        | obj pfs =>
          cases hem : fieldGet pfs "emails" with
          | none =>
            simp only [applyTransforms, hinj, if_neg ht, hp, hem, Except.ok.injEq] at h
            exact Or.inl h.symm
          | some em =>
            cases em with
            | null =>
              simp only [applyTransforms, hinj, if_neg ht, hp, hem, Except.ok.injEq] at h
              exact Or.inl h.symm
            | bool b =>
              simp only [applyTransforms, hinj, if_neg ht, hp, hem, Except.ok.injEq] at h
              exact Or.inl h.symm
            | num tok =>
              simp only [applyTransforms, hinj, if_neg ht, hp, hem, Except.ok.injEq] at h
              exact Or.inl h.symm
            | str s =>
              simp only [applyTransforms, hinj, if_neg ht, hp, hem, Except.ok.injEq] at h
              exact Or.inl h.symm
            | obj ofs =>
              simp only [applyTransforms, hinj, if_neg ht, hp, hem, Except.ok.injEq] at h
              exact Or.inl h.symm
            | arr items =>
              cases items with
              | nil =>
                simp only [applyTransforms, hinj, if_neg ht, hp, hem, Except.ok.injEq] at h
                exact Or.inl h.symm
              | cons first rest =>
                by_cases htr : jsTruthy first = true
                · cases first with
                  | null => exact absurd htr (by simp [jsTruthy])
                  | bool b =>
                    simp only [applyTransforms, hinj, if_neg ht, hp, hem, htr,
                      if_true] at h
                    exact absurd h (by simp)
                  | num tok =>
                    simp only [applyTransforms, hinj, if_neg ht, hp, hem, htr,
                      if_true] at h
                    exact absurd h (by simp)
                  | str s =>
                    simp only [applyTransforms, hinj, if_neg ht, hp, hem, htr,
                      if_true] at h
                    exact absurd h (by simp)
                  | arr l =>
                    simp only [applyTransforms, hinj, if_neg ht, hp, hem, htr,
                      if_true, Except.ok.injEq] at h
                    exact Or.inr ⟨t, pfs, .arr l, rest, rfl, ht, rfl, hem, htr,
                      Or.inl ⟨l, rfl, h.symm⟩⟩
                  | obj ffs =>
                    cases htyp : fieldGet ffs "type" with
                    | some tv =>
                      by_cases htv : jsTruthy tv = true
                      · simp only [applyTransforms, hinj, if_neg ht, hp, hem, htr,
                          if_true, htyp, htv, Except.ok.injEq] at h
                        exact Or.inl h.symm
                      · simp only [applyTransforms, hinj, if_neg ht, hp, hem, htr,
                          if_true, htyp, if_neg htv, Except.ok.injEq] at h
                        refine Or.inr ⟨t, pfs, .obj ffs, rest, rfl, ht, rfl, hem, htr,
                          Or.inr ⟨ffs, rfl, ?_, h.symm⟩⟩
                        intro tv' htv'
                        rw [htyp] at htv'
                        obtain rfl : tv = tv' := by injection htv'
                        exact Bool.not_eq_true _ ▸ htv
                    | none =>
                      simp only [applyTransforms, hinj, if_neg ht, hp, hem, htr,
                        if_true, htyp, Except.ok.injEq] at h
                      refine Or.inr ⟨t, pfs, .obj ffs, rest, rfl, ht, rfl, hem, htr,
                        Or.inr ⟨ffs, rfl, ?_, h.symm⟩⟩
                      intro tv' htv'
                      rw [htyp] at htv'
                      exact absurd htv' (by simp)
                · simp only [applyTransforms, hinj, if_neg ht, hp, hem, if_neg htr,
                    Except.ok.injEq] at h
                  exact Or.inl h.symm

/-- Planting the email type keeps the parsed object well-formed. -/
theorem modified_good {pfs ffs : List (String × Json)} {rest : List Json} {t : String}
    (hg : goodVal (.obj pfs) = true)
    (hem : fieldGet pfs "emails" = some (.arr (.obj ffs :: rest))) :
    goodVal (.obj (fieldSet pfs "emails"
      (.arr (.obj (fieldSet ffs "type" (.str t)) :: rest)))) = true := by
  simp only [goodVal, Bool.and_eq_true, decide_eq_true_eq] at hg ⊢
  obtain ⟨hnd, hgf⟩ := hg
  have hva := fieldGet_good hgf hem
  simp only [goodVal, goodItems, Bool.and_eq_true, decide_eq_true_eq] at hva
  obtain ⟨⟨hndf, hgff⟩, hrest⟩ := hva
  refine ⟨fieldSet_keys_nodup hnd, fieldSet_goodFields hgf ?_⟩
  simp only [goodVal, goodItems, Bool.and_eq_true, decide_eq_true_eq]
  exact ⟨⟨fieldSet_keys_nodup hndf, fieldSet_goodFields hgff (by simp [goodVal])⟩, hrest⟩

/-- A successful transform is a fixed point of the transform. -/
theorem applyTransforms_ok_idem {x y : String} {cfg : Config}
    (h : applyTransforms x cfg = .ok y) : applyTransforms y cfg = .ok y := by
  rcases applyTransforms_ok_shape x y cfg h with rfl |
    ⟨t, pfs, first, rest, hinj, ht, hp, hem, htr, hcase⟩
  · exact h
  · have hg : goodVal (.obj pfs) = true := jsonParse_good hp
    rcases hcase with ⟨l, rfl, rfl⟩ | ⟨ffs, rfl, htyp, rfl⟩
    · have hpe : jsonParse (jsonEncode (.obj pfs)) = some (.obj pfs) :=
        jsonParse_encode _ hg
      simp only [applyTransforms, hinj, if_neg ht, hpe, hem, htr, if_true]
    · have hgood := modified_good (t := t) hg hem
      have hpe := jsonParse_encode _ hgood
      simp [applyTransforms, hinj, ht, hpe, fieldGet_fieldSet_self, jsTruthy]

/-! ## Claim C6 -/

/-- C6: the claimed for-every-input idempotence fails because `applyTransforms`
is not even total: with the transform enabled, the body `"null"` parses to
`null` and the unguarded `parsed["emails"]` read raises a TypeError, so
`applyTransforms("null", cfg)` returns no string at all.  On the inputs where
the first application does return, the function is a projection: every
successful output is a fixed point, which is the idempotence equation on the
function's actual domain. -/
theorem applyTransforms_null_fault_and_ok_idem :
    applyTransforms "null" (testConfig (some "work")) = .error .typeFault
    ∧ ∀ (x y : String) (cfg : Config),
        applyTransforms x cfg = .ok y → applyTransforms y cfg = .ok y :=
  ⟨rfl, fun _ _ _ h => applyTransforms_ok_idem h⟩

/-- The C6 fixed-point statement at a concrete input that exercises the
planting branch: injecting into `{"emails":[{"value":"a"}]}` yields
`{"emails":[{"value":"a","type":"work"}]}`, and transforming that output again
returns it unchanged. -/
theorem applyTransforms_null_fault_and_ok_idem_witness :
    applyTransforms "\x7b\"emails\":[\x7b\"value\":\"a\",\"type\":\"work\"\x7d]\x7d"
        (testConfig (some "work"))
      = .ok "\x7b\"emails\":[\x7b\"value\":\"a\",\"type\":\"work\"\x7d]\x7d" :=
  applyTransforms_null_fault_and_ok_idem.2
    "\x7b\"emails\":[\x7b\"value\":\"a\"\x7d]\x7d"
    "\x7b\"emails\":[\x7b\"value\":\"a\",\"type\":\"work\"\x7d]\x7d"
    (testConfig (some "work")) rfl

/-! ## Claim C7 -/

/-- Spec-level frame relation for C7: the second value equals the first, or
differs from it only by planting a value for the `type` field of the first
element of `emails` — every other top-level key, every other email entry, and
every other field of the first email read back unchanged. -/
def modifiesOnlyFirstEmailType (j j' : Json) : Prop :=
  j' = j ∨
  ∃ pfs ffs rest tval,
    j = .obj pfs ∧
    fieldGet pfs "emails" = some (.arr (.obj ffs :: rest)) ∧
    j' = .obj (fieldSet pfs "emails"
      (.arr (.obj (fieldSet ffs "type" tval) :: rest))) ∧
    (∀ k, k ≠ "emails" →
      fieldGet (fieldSet pfs "emails"
        (.arr (.obj (fieldSet ffs "type" tval) :: rest))) k = fieldGet pfs k) ∧
    (∀ k, k ≠ "type" → fieldGet (fieldSet ffs "type" tval) k = fieldGet ffs k)

/-- C7: whenever `applyTransforms` returns and the input parsed, the output
parses to a value that differs from the input value at most in the `type`
field of the first element of `emails`; and an input whose first email already
carries a non-empty string `type` is returned verbatim — a present, non-empty
classification is never overwritten. -/
theorem applyTransforms_frame_spec :
    (∀ (x y : String) (cfg : Config) (j : Json),
        applyTransforms x cfg = .ok y → jsonParse x = some j →
        ∃ j', jsonParse y = some j' ∧ modifiesOnlyFirstEmailType j j')
    ∧ (∀ (x : String) (cfg : Config) (pfs ffs : List (String × Json))
          (rest : List Json) (tv : String),
        jsonParse x = some (.obj pfs) →
        fieldGet pfs "emails" = some (.arr (.obj ffs :: rest)) →
        fieldGet ffs "type" = some (.str tv) → tv ≠ "" →
        applyTransforms x cfg = .ok x) := by
  constructor
  · intro x y cfg j h hpj
    rcases applyTransforms_ok_shape x y cfg h with rfl |
      ⟨t, pfs, first, rest, hinj, ht, hp, hem, htr, hcase⟩
    · exact ⟨j, hpj, Or.inl rfl⟩
    · rw [hp] at hpj
      obtain rfl : Json.obj pfs = j := by injection hpj
      have hg : goodVal (.obj pfs) = true := jsonParse_good hp
      rcases hcase with ⟨l, rfl, rfl⟩ | ⟨ffs, rfl, htyp, rfl⟩
      · exact ⟨.obj pfs, jsonParse_encode _ hg, Or.inl rfl⟩
      · refine ⟨_, jsonParse_encode _ (modified_good hg hem),
          Or.inr ⟨pfs, ffs, rest, .str t, rfl, hem, rfl, ?_, ?_⟩⟩
        · intro k hk
          exact fieldGet_fieldSet_other _ _ _ _ hk
        · intro k hk
          exact fieldGet_fieldSet_other _ _ _ _ hk
  · intro x cfg pfs ffs rest tv hpj hem htyp htv
    cases hinj : cfg.transforms.inject_email_type with
    | none => simp [applyTransforms, hinj]
    | some t =>
      by_cases ht : t = ""
      · simp [applyTransforms, hinj, ht]
      · simp [applyTransforms, hinj, ht, hpj, hem, htyp, jsTruthy, htv]

/-- The C7 statement at concrete inputs: a transform that plants `type` into
`{"emails":[{"value":"a"}]}` yields a value differing only in that field, and
`{"emails":[{"type":"home"}]}` passes through verbatim. -/
theorem applyTransforms_frame_spec_witness :
    (∃ j', jsonParse "\x7b\"emails\":[\x7b\"value\":\"a\",\"type\":\"work\"\x7d]\x7d"
        = some j'
      ∧ modifiesOnlyFirstEmailType
          (.obj [("emails", .arr [.obj [("value", .str "a")]])]) j')
    ∧ applyTransforms "\x7b\"emails\":[\x7b\"type\":\"home\"\x7d]\x7d"
        (testConfig (some "work"))
      = .ok "\x7b\"emails\":[\x7b\"type\":\"home\"\x7d]\x7d" :=
  ⟨applyTransforms_frame_spec.1
      "\x7b\"emails\":[\x7b\"value\":\"a\"\x7d]\x7d"
      "\x7b\"emails\":[\x7b\"value\":\"a\",\"type\":\"work\"\x7d]\x7d"
      (testConfig (some "work"))
      (.obj [("emails", .arr [.obj [("value", .str "a")]])]) rfl rfl,
   applyTransforms_frame_spec.2
      "\x7b\"emails\":[\x7b\"type\":\"home\"\x7d]\x7d"
      (testConfig (some "work"))
      [("emails", .arr [.obj [("type", .str "home")]])]
      [("type", .str "home")] [] "home" rfl rfl rfl (by decide)⟩
